import Mathlib

set_option autoImplicit false
set_option maxHeartbeats 1000000
set_option maxRecDepth 10000
set_option synthInstance.maxHeartbeats 1000000

/-! Verification of the streaming event normalizer implemented by the
juno-code wrapper services (`src/templates/services/codex.py`,
`gemini.py`, `claude.py`): chunk reassembly of JSON object streams,
schema normalization, suppression filtering and event rendering.
Program text is modelled as `List Char`; JSON values as an inductive
type; Python exceptions as `Except Unit`. -/

namespace Juno

/-- Characters removed by Python `str.strip()` (ASCII whitespace). -/
def isPyWs (c : Char) : Bool :=
  c = ' ' || c = '\t' || c = '\n' || c = '\r' || c = '\x0b' || c = '\x0c'

/-- Python `s.strip()`: drop leading and trailing whitespace. -/
def pyStrip (l : List Char) : List Char :=
  ((l.dropWhile isPyWs).reverse.dropWhile isPyWs).reverse

/-- Characters removed by `.strip("'\"")`. -/
def isQuoteCh (c : Char) : Bool :=
  c = '\'' || c = '\"'

/-- Python `s.strip("'\"")`: drop leading and trailing quote characters. -/
def stripQuotes (l : List Char) : List Char :=
  ((l.dropWhile isQuoteCh).reverse.dropWhile isQuoteCh).reverse

/-- Python `s.lower()` (ASCII). -/
def pyLower (l : List Char) : List Char := l.map Char.toLower

/-- Python `pat in l` (substring containment). -/
def containsSub (pat : List Char) : List Char → Bool
  | [] => pat.isPrefixOf []
  | c :: cs => pat.isPrefixOf (c :: cs) || containsSub pat cs

/-- Python `text.split(sep)` for a one-character separator
(`"".split(",") = [""]`). -/
def pySplitOn (sep : Char) : List Char → List (List Char)
  | [] => [[]]
  | c :: cs =>
    match pySplitOn sep cs with
    | [] => [[]]
    | h :: t => if c = sep then [] :: h :: t else (c :: h) :: t

/-- Python slice `l[:n]`, including negative indices (count from the end). -/
def pySliceTo (n : Int) (l : List (List Char)) : List (List Char) :=
  if 0 ≤ n then l.take n.toNat else l.take ((l.length : Int) + n).toNat

/-- Scanner state of the brace-balance JSON stream splitters
(`split_json_stream` in codex.py, `_split_json_stream` in gemini.py). -/
structure ScanState where
  objs : List (List Char)
  buf : List Char
  depth : Int
  inStr : Bool
  esc : Bool
  started : Bool
deriving DecidableEq

/-- Initial scanner state. -/
def initScan : ScanState := ⟨[], [], 0, false, false, false⟩

/-- The scanner state with its emitted-objects list cleared. -/
def clearObjs (s : ScanState) : ScanState := { s with objs := [] }

/-- One character of the scan loop of codex.py `split_json_stream`
(lines 419-449).  Characters seen before an object starts and outside
any string are dropped unless they are quotes or braces. -/
def codexStep (s : ScanState) (c : Char) : ScanState :=
  if s.inStr then
    let t := { s with buf := s.buf ++ [c] }
    if s.esc then { t with esc := false }
    else if c = '\\' then { t with esc := true }
    else if c = '\"' then { t with inStr := false }
    else t
  else if c = '\"' then { s with inStr := true, buf := s.buf ++ [c] }
  else if c = '\x7b' then
    { s with depth := s.depth + 1, started := true, buf := s.buf ++ [c] }
  else if c = '\x7d' then
    let t := { s with depth := s.depth - 1, buf := s.buf ++ [c] }
    if t.started = true ∧ t.depth = 0 then
      let cand := stripQuotes (pyStrip t.buf)
      { t with objs := if cand ≠ [] then t.objs ++ [cand] else t.objs,
               buf := [], started := false }
    else t
  else if s.started then { s with buf := s.buf ++ [c] }
  else s

/-- One character of the scan loop of gemini.py `_split_json_stream`
(lines 264-303).  Identical to the codex scanner except that characters
seen before an object starts are kept in the buffer, with the delimiter
character 0x7f treated as whitespace and skipped. -/
def geminiStep (s : ScanState) (c : Char) : ScanState :=
  if s.inStr then
    let t := { s with buf := s.buf ++ [c] }
    if s.esc then { t with esc := false }
    else if c = '\\' then { t with esc := true }
    else if c = '\"' then { t with inStr := false }
    else t
  else if c = '\"' then { s with inStr := true, buf := s.buf ++ [c] }
  else if c = '\x7b' then
    { s with depth := s.depth + 1, started := true, buf := s.buf ++ [c] }
  else if c = '\x7d' then
    let t := { s with depth := s.depth - 1, buf := s.buf ++ [c] }
    if t.started = true ∧ t.depth = 0 then
      let cand := stripQuotes (pyStrip t.buf)
      { t with objs := if cand ≠ [] then t.objs ++ [cand] else t.objs,
               buf := [], started := false }
    else t
  else if s.started then { s with buf := s.buf ++ [c] }
  else if c = '\x7f' then s
  else { s with buf := s.buf ++ [c] }

/-- Run the codex scanner over a list of characters. -/
def scanFrom (s : ScanState) (l : List Char) : ScanState := l.foldl codexStep s

/-- Run the gemini scanner over a list of characters. -/
def scanFromG (s : ScanState) (l : List Char) : ScanState := l.foldl geminiStep s

/-- codex.py `split_json_stream(text)`: the list of complete top-level
JSON object strings found in `text` and the unconsumed remainder. -/
def splitJsonStream (text : List Char) : List (List Char) × List Char :=
  ((scanFrom initScan text).objs, (scanFrom initScan text).buf)

/-- gemini.py `_split_json_stream(text)`. -/
def splitJsonStreamG (text : List Char) : List (List Char) × List Char :=
  ((scanFromG initScan text).objs, (scanFromG initScan text).buf)

/-- Feed a sequence of chunks through the codex reassembler, prepending
each call's remainder to the next chunk, starting from pending text
`pending`; returns all emitted objects and the final remainder. -/
def feedFrom (pending : List Char) (chunks : List (List Char)) :
    List (List Char) × List Char :=
  match chunks with
  | [] => ([], pending)
  | ch :: rest =>
    let r := splitJsonStream (pending ++ ch)
    let f := feedFrom r.2 rest
    (r.1 ++ f.1, f.2)

/-- Feed chunks through the codex reassembler starting with an empty
pending buffer. -/
def feedAll (chunks : List (List Char)) : List (List Char) × List Char :=
  feedFrom [] chunks

/-- Feed a sequence of chunks through the gemini reassembler. -/
def feedFromG (pending : List Char) (chunks : List (List Char)) :
    List (List Char) × List Char :=
  match chunks with
  | [] => ([], pending)
  | ch :: rest =>
    let r := splitJsonStreamG (pending ++ ch)
    let f := feedFromG r.2 rest
    (r.1 ++ f.1, f.2)

/-- Feed chunks through the gemini reassembler starting empty. -/
def feedAllG (chunks : List (List Char)) : List (List Char) × List Char :=
  feedFromG [] chunks

/-- JSON values as produced by `json.loads` on the child's output
(numbers restricted to integers, which is all the streams use). -/
inductive Json where
  | null
  | bool (b : Bool)
  | num (n : Int)
  | str (s : List Char)
  | arr (elems : List Json)
  | obj (fields : List (List Char × Json))

/-- Whether a JSON value is a Python `dict`. -/
def Json.isObj : Json → Bool
  | .obj _ => true
  | _ => false

/-- First value bound to key `k` in an association list (Python dicts
have unique keys; insertion order is preserved). -/
def dlookup (k : List Char) : List (List Char × Json) → Option Json
  | [] => none
  | (k2, v) :: rest => if k2 = k then some v else dlookup k rest

/-- Python `d.get(k)`: `None` when `d` has no such key. -/
def Json.get (j : Json) (k : List Char) : Option Json :=
  match j with
  | .obj fs => dlookup k fs
  | _ => none

/-- Python truthiness of a JSON value. -/
def Json.truthy : Json → Bool
  | .null => false
  | .bool b => b
  | .num n => n != 0
  | .str s => !s.isEmpty
  | .arr xs => !xs.isEmpty
  | .obj fs => !fs.isEmpty

/-- Truthiness of an optional (possibly absent) value. -/
def optTruthy : Option Json → Bool
  | none => false
  | some v => v.truthy

/-- Python dict assignment `d[k] = v`: replace in place or append. -/
def dset (d : List (List Char × Json)) (k : List Char) (v : Json) :
    List (List Char × Json) :=
  match d with
  | [] => [(k, v)]
  | (k2, v2) :: rest =>
    if k2 = k then (k2, v) :: rest else (k2, v2) :: dset rest k v

/-- Python `k in d` for a dict. -/
def dHasKey (d : List (List Char × Json)) (k : List Char) : Bool :=
  (dlookup k d).isSome

/-- Python `d.pop(k)` (the resulting dict). -/
def dpop (d : List (List Char × Json)) (k : List Char) :
    List (List Char × Json) :=
  match d with
  | [] => []
  | (k2, v2) :: rest => if k2 = k then rest else (k2, v2) :: dpop rest k

/-- Python `{**base, **extra}`-style merge: assign `extra`'s entries
into `base` in order. -/
def dmerge (base : List (List Char × Json)) (extra : List (List Char × Json)) :
    List (List Char × Json) :=
  extra.foldl (fun acc kv => dset acc kv.1 kv.2) base

/-- Decimal digit character. -/
def digitCh : Nat → Char
  | 0 => '0' | 1 => '1' | 2 => '2' | 3 => '3' | 4 => '4'
  | 5 => '5' | 6 => '6' | 7 => '7' | 8 => '8' | _ => '9'

/-- Digits of a natural number, accumulated right to left; the fuel
argument only bounds the recursion depth. -/
def natReprAux : Nat → Nat → List Char → List Char
  | 0, _, acc => acc
  | fuel + 1, n, acc =>
    if n < 10 then digitCh n :: acc
    else natReprAux fuel (n / 10) (digitCh (n % 10) :: acc)

/-- Decimal representation of a natural number. -/
def natReprCh (n : Nat) : List Char :=
  natReprAux (n + 1) n []

/-- Decimal representation of an integer, as printed by `json.dumps`. -/
def intRepr (n : Int) : List Char :=
  if n < 0 then '-' :: natReprCh n.natAbs else natReprCh n.toNat

/-- Lower-case hexadecimal digit. -/
def hexDig : Nat → Char
  | 0 => '0' | 1 => '1' | 2 => '2' | 3 => '3' | 4 => '4'
  | 5 => '5' | 6 => '6' | 7 => '7' | 8 => '8' | 9 => '9'
  | 10 => 'a' | 11 => 'b' | 12 => 'c' | 13 => 'd' | 14 => 'e' | _ => 'f'

/-- `json.dumps` escaping of one character inside a string literal
(`ensure_ascii=False`: only quotes, backslashes and control characters
are escaped). -/
def jesc (c : Char) : List Char :=
  if c = '\"' then ['\\', '\"']
  else if c = '\\' then ['\\', '\\']
  else if c = '\n' then ['\\', 'n']
  else if c = '\t' then ['\\', 't']
  else if c = '\r' then ['\\', 'r']
  else if c = '\x08' then ['\\', 'b']
  else if c = '\x0c' then ['\\', 'f']
  else if c.toNat < 32 then
    ['\\', 'u', '0', '0', hexDig (c.toNat / 16), hexDig (c.toNat % 16)]
  else [c]

/-- `json.dumps` rendering of a string literal. -/
def jstr (s : List Char) : List Char :=
  '\"' :: (s.map jesc).flatten ++ ['\"']

mutual

/-- `json.dumps(v, ensure_ascii=False)` with the default separators
`", "` and `": "`, over this JSON model. -/
def jdumps : Json → List Char
  | .null => "null".data
  | .bool true => "true".data
  | .bool false => "false".data
  | .num n => intRepr n
  | .str s => jstr s
  | .arr xs => '[' :: jdumpsArr xs ++ [']']
  | .obj fs => '\x7b' :: jdumpsObj fs ++ ['\x7d']

/-- Comma-separated rendering of array elements. -/
def jdumpsArr : List Json → List Char
  | [] => []
  | [x] => jdumps x
  | x :: y :: rest => jdumps x ++ ',' :: ' ' :: jdumpsArr (y :: rest)

/-- Comma-separated rendering of object entries. -/
def jdumpsObj : List (List Char × Json) → List Char
  | [] => []
  | [(k, v)] => jstr k ++ ':' :: ' ' :: jdumps v
  | (k, v) :: f2 :: rest =>
    jstr k ++ ':' :: ' ' :: jdumps v ++ ',' :: ' ' :: jdumpsObj (f2 :: rest)

end

mutual

/-- Whether some string value inside a JSON value contains a brace
character. -/
def hasBraceString : Json → Bool
  | .str s => s.contains '\x7b' || s.contains '\x7d'
  | .arr xs => hasBraceStringArr xs
  | .obj fs => hasBraceStringObj fs
  | _ => false

/-- `hasBraceString` over array elements. -/
def hasBraceStringArr : List Json → Bool
  | [] => false
  | x :: rest => hasBraceString x || hasBraceStringArr rest

/-- `hasBraceString` over object entries. -/
def hasBraceStringObj : List (List Char × Json) → Bool
  | [] => false
  | (_, v) :: rest => hasBraceString v || hasBraceStringObj rest

end

/-- Python `(v or "").strip()` applied to a fetched JSON field: falsy
values give the empty string, truthy strings are stripped, truthy
non-strings raise (no `.strip` attribute). -/
def orEmptyStrip : Option Json → Except Unit (List Char)
  | none => .ok []
  | some v =>
    if v.truthy then
      match v with
      | .str s => .ok (pyStrip s)
      | _ => .error ()
    else .ok []

/-- Python `'c' in v` where `v` is an arbitrary JSON value: strings
answer substring membership, lists and dicts answer element/key
membership, scalars raise `TypeError`. -/
def pyInStrE (c : Char) : Json → Except Unit Bool
  | .str s => .ok (s.contains c)
  | .arr xs => .ok (xs.any (fun e => match e with | .str t => t == [c] | _ => false))
  | .obj fs => .ok (fs.any (fun kv => kv.1 == [c]))
  | _ => .error ()

/-- codex.py `CodexService._normalize_event` (lines 356-374); returns
`(msg_type, payload, outer_type)`, raising when a present `type` field
is a truthy non-string. -/
def normalizeEvent (o : Json) : Except Unit (List Char × Json × List Char) := do
  let msg : Json :=
    match o.get "msg".data with
    | some m => if m.isObj then m else .obj []
    | none => .obj []
  let outer ← orEmptyStrip (o.get "type".data)
  let item : Option Json :=
    match o.get "item".data with
    | some i => if i.isObj then some i else none
    | none => none
  let msgType ← orEmptyStrip (msg.get "type".data)
  let payload := msg
  if msgType.isEmpty then
    match item with
    | some it => do
      let itType ← orEmptyStrip (it.get "type".data)
      pure (if itType.isEmpty then outer else itType, it, outer)
    | none => pure (outer, payload, outer)
  else
    pure (msgType, payload, outer)

/-- codex.py `CodexService._first_nonempty_str` (lines 131-136). -/
def firstNonemptyStr : List (Option Json) → List Char
  | [] => []
  | some (Json.str s) :: rest => if !s.isEmpty then s else firstNonemptyStr rest
  | _ :: rest => firstNonemptyStr rest

/-- Python `a or b or ...`: the first truthy value, else the last. -/
def pyOrChain : List (Option Json) → Option Json
  | [] => none
  | [v] => v
  | v :: w :: rest => if optTruthy v then v else pyOrChain (w :: rest)

/-- codex.py `CodexService._extract_content_text` (lines 138-154). -/
def extractContentText (payload : Json) : List Char :=
  let content := if payload.isObj then payload.get "content".data else none
  match content with
  | some (Json.arr entries) =>
    let parts := entries.filterMap (fun e =>
      if e.isObj then
        match pyOrChain [e.get "text".data, e.get "message".data,
            e.get "output_text".data, e.get "input_text".data] with
        | some (Json.str s) => if !s.isEmpty then some s else none
        | _ => none
      else none)
    if !parts.isEmpty then List.intercalate ['\n'] parts else []
  | _ => []

/-- codex.py `CodexService._extract_command_output_text`
(lines 156-170). -/
def extractCommandOutputText (payload : Json) : List Char :=
  if !payload.isObj then [] else
  let result :=
    match payload.get "result".data with
    | some r => if r.isObj then some r else none
    | none => none
  let contentText := extractContentText payload
  firstNonemptyStr
    [payload.get "aggregated_output".data,
     payload.get "output".data,
     payload.get "formatted_output".data,
     result.bind (fun r => r.get "aggregated_output".data),
     result.bind (fun r => r.get "output".data),
     result.bind (fun r => r.get "formatted_output".data),
     some (Json.str contentText)]

/-- codex.py `CodexService._extract_reasoning_text` (lines 172-185). -/
def extractReasoningText (payload : Json) : List Char :=
  if !payload.isObj then [] else
  let reasoningObj :=
    match payload.get "reasoning".data with
    | some r => if r.isObj then some r else none
    | none => none
  let resultObj :=
    match payload.get "result".data with
    | some r => if r.isObj then some r else none
    | none => none
  let contentText := extractContentText payload
  firstNonemptyStr
    [payload.get "text".data,
     payload.get "reasoning_text".data,
     reasoningObj.bind (fun r => r.get "text".data),
     resultObj.bind (fun r => r.get "text".data),
     some (Json.str contentText)]

/-- codex.py `CodexService._extract_message_text` (lines 187-200). -/
def extractMessageText (payload : Json) : List Char :=
  if !payload.isObj then [] else
  let resultObj :=
    match payload.get "result".data with
    | some r => if r.isObj then some r else none
    | none => none
  let contentText := extractContentText payload
  firstNonemptyStr
    [payload.get "message".data,
     payload.get "text".data,
     payload.get "final".data,
     resultObj.bind (fun r => r.get "message".data),
     resultObj.bind (fun r => r.get "text".data),
     some (Json.str contentText)]

/-- Body of codex.py `CodexService._format_msg_pretty` (lines 281-352),
exceptions modelled as `.error`; `.ok none` is an explicit `None`
return (fall-through to raw printing). -/
def formatMsgPrettyE (msgType0 : List Char) (payload : Json)
    (outerType0 : List Char) (now : List Char) :
    Except Unit (Option (List Char)) := do
  let msgType := pyStrip msgType0
  let headerType := pyStrip (if outerType0 ≠ [] then outerType0 else msgType)
  let hdrVal : List Char :=
    if headerType ≠ [] then headerType
    else if msgType ≠ [] then msgType else "message".data
  let header0 : List (List Char × Json) :=
    [("type".data, .str hdrVal), ("datetime".data, .str now)]
  let header1 :=
    if outerType0 ≠ [] ∧ msgType ≠ [] ∧ outerType0 ≠ msgType then
      dset header0 "item_type".data (.str msgType)
    else header0
  let header2 :=
    if payload.isObj then
      let h :=
        if optTruthy (payload.get "command".data) then
          dset header1 "command".data ((payload.get "command".data).getD .null)
        else header1
      let h :=
        if optTruthy (payload.get "status".data) then
          dset h "status".data ((payload.get "status".data).getD .null)
        else h
      let h :=
        if optTruthy (payload.get "state".data) ∧
            optTruthy (dlookup "status".data h) = false then
          dset h "status".data ((payload.get "state".data).getD .null)
        else h
      h
    else header1
  if msgType = "agent_message".data then
    let content : Json :=
      if payload.isObj then (payload.get "message".data).getD (.str []) else .str []
    let header := [("type".data, Json.str msgType), ("datetime".data, Json.str now)]
    let multi ← pyInStrE '\n' content
    if multi then
      match content with
      | .str s => pure (some (jdumps (.obj header) ++ "\nmessage:\n".data ++ s))
      | _ => .error ()
    else
      pure (some (jdumps (.obj (dset header "message".data content))))
  else if msgType = "agent_reasoning".data ∨ msgType = "reasoning".data then
    let content := extractReasoningText payload
    let header : List (List Char × Json) :=
      [("type".data, Json.str (if headerType ≠ [] then headerType else msgType)),
       ("datetime".data, Json.str now)]
    let header :=
      if outerType0 ≠ [] ∧ msgType ≠ [] ∧ outerType0 ≠ msgType then
        dset header "item_type".data (.str msgType)
      else header
    if content.contains '\n' then
      pure (some (jdumps (.obj header) ++ "\ntext:\n".data ++ content))
    else
      pure (some (jdumps (.obj (dset header "text".data (.str content)))))
  else if msgType = "message".data ∨ msgType = "assistant_message".data ∨
      msgType = "assistant".data then
    let content := extractMessageText payload
    let header : List (List Char × Json) :=
      [("type".data, Json.str (if headerType ≠ [] then headerType else msgType)),
       ("datetime".data, Json.str now)]
    let header :=
      if outerType0 ≠ [] ∧ msgType ≠ [] ∧ outerType0 ≠ msgType then
        dset header "item_type".data (.str msgType)
      else header
    if content.contains '\n' then
      pure (some (jdumps (.obj header) ++ "\nmessage:\n".data ++ content))
    else if content ≠ [] then
      pure (some (jdumps (.obj (dset header "message".data (.str content)))))
    else if headerType ≠ [] then
      pure (some (jdumps (.obj header)))
    else
      pure none
  else if msgType = "exec_command_end".data then
    let fo : Json :=
      if payload.isObj then (payload.get "formatted_output".data).getD (.str [])
      else .str []
    let header := [("type".data, Json.str msgType), ("datetime".data, Json.str now)]
    let multi ← pyInStrE '\n' fo
    if multi then
      match fo with
      | .str s => pure (some (jdumps (.obj header) ++ "\nformatted_output:\n".data ++ s))
      | _ => .error ()
    else
      pure (some (jdumps (.obj (dset header "formatted_output".data fo))))
  else if msgType = "command_execution".data then
    let agg := extractCommandOutputText payload
    if agg.contains '\n' then
      pure (some (jdumps (.obj header2) ++ "\naggregated_output:\n".data ++ agg))
    else if agg ≠ [] then
      pure (some (jdumps (.obj (dset header2 "aggregated_output".data (.str agg)))))
    else if headerType ≠ [] then
      pure (some (jdumps (.obj header2)))
    else
      pure none
  else
    pure none

/-- codex.py `_format_msg_pretty`: `None` both on fall-through and when
the try-block raises. -/
def formatMsgPretty (msgType0 : List Char) (payload : Json)
    (outerType0 : List Char) (now : List Char) : Option (List Char) :=
  match formatMsgPrettyE msgType0 payload outerType0 now with
  | .ok r => r
  | .error _ => none

/-- The hard-coded default suppressed set of run_codex (line 389). -/
def defaultHiddenTypes : List (List Char) :=
  ["turn_diff".data, "token_count".data, "exec_command_output_delta".data]

/-- The trimmed, non-empty comma-separated entries of one override
environment variable (codex.py line 395). -/
def envEntries (v : List Char) : List (List Char) :=
  ((pySplitOn ',' v).map pyStrip).filter (fun p => !p.isEmpty)

/-- run_codex's computation of `hide_types` from the two environment
variables (codex.py lines 388-396); an unset variable is the empty
string.  A Python set is modelled as a list with membership
semantics. -/
def computeHideTypes (env1 env2 : List Char) : List (List Char) :=
  let hide := defaultHiddenTypes
  let hide := if env1 ≠ [] then hide ++ envEntries env1 else hide
  let hide := if env2 ≠ [] then hide ++ envEntries env2 else hide
  hide

/-- The quoted suppressed-kind substrings searched for in raw text. -/
def qTokenCount : List Char := "\"token_count\"".data

/-- Quoted name of the output-delta kind. -/
def qExecDelta : List Char := "\"exec_command_output_delta\"".data

/-- Quoted name of the turn-diff kind. -/
def qTurnDiff : List Char := "\"turn_diff\"".data

/-- The repeated raw-text suppression test of run_codex: lowercase the
text and search for any quoted suppressed-kind name. -/
def noisySub (l : List Char) : Bool :=
  containsSub qTokenCount (pyLower l) || containsSub qExecDelta (pyLower l) ||
    containsSub qTurnDiff (pyLower l)

/-- The text written by `print(x, end="" if x.endswith("\n") else "\n")`. -/
def printEnd (x : List Char) : List Char :=
  if x.getLast? = some '\n' then x else x ++ ['\n']

/-- codex.py `handle_obj` (lines 453-469).  Returns the texts printed
and the write to the `last_token_count` slot (`some w` means the slot
is assigned `w`); the slot is never read.  `.error` propagates an
exception raised by `_normalize_event`, which occurs before any output
or slot write. -/
def handleObjE (hide : List (List Char)) (now : List Char) (o : Json) :
    Except Unit (List (List Char) × Option (Option Json)) := do
  let r ← normalizeEvent o
  let msgType := r.1
  let payload := r.2.1
  let outerType := r.2.2
  if msgType = "token_count".data then
    pure ([], some (some o))
  else if msgType ≠ [] ∧ msgType ∈ hide then
    pure ([], none)
  else
    match formatMsgPretty msgType payload outerType now with
    | some line => pure ([line ++ ['\n']], none)
    | none => pure ([jdumps o ++ ['\n']], none)

/-- Fallback of run_codex's per-part loop for parts that fail to parse,
parse to a non-dict, or whose handling raises (lines 516-533): drop
suppressed-looking text, print the part otherwise. -/
def fallbackPart (part : List Char) : List (List Char) × Option (Option Json) :=
  if noisySub part then ([], none) else ([part ++ ['\n']], none)

/-- Processing of one extracted part in run_codex's loop
(lines 511-533). -/
def handlePart (loads : List Char → Option Json) (hide : List (List Char))
    (now : List Char) (part : List Char) :
    List (List Char) × Option (Option Json) :=
  match loads part with
  | some j =>
    if j.isObj then
      match handleObjE hide now j with
      | .ok r => r
      | .error _ => fallbackPart part
    else fallbackPart part
  | none => fallbackPart part

/-- Combine slot writes from consecutive parts: the later write wins. -/
def mergeWrite (a b : Option (Option Json)) : Option (Option Json) :=
  match b with
  | some w => some w
  | none => a

/-- Process the parts list, concatenating outputs and keeping the last
slot write. -/
def handleParts (loads : List Char → Option Json) (hide : List (List Char))
    (now : List Char) : List (List Char) → List (List Char) × Option (Option Json)
  | [] => ([], none)
  | p :: rest =>
    let r := handlePart loads hide now p
    let f := handleParts loads hide now rest
    (r.1 ++ f.1, mergeWrite r.2 f.2)

/-- One iteration of run_codex's streaming loop (codex.py lines
474-548) on the carried pending text and the next raw line.  Returns
the texts printed, the new pending buffer, and the slot write. -/
def stepLine (loads : List Char → Option Json) (hide : List (List Char))
    (now : List Char) (pending rawLine : List Char) :
    List (List Char) × List Char × Option (Option Json) :=
  let combined := pending ++ rawLine
  if pyStrip combined = [] then ([], [], none)
  else if ¬combined.contains '\x7b' ∧ ¬combined.contains '\x7d' then
    if noisySub combined then ([], [], none)
    else ([printEnd combined], [], none)
  else
    let firstPre := combined.takeWhile (fun c => c ≠ '\x7b')
    let pre :=
      if combined.contains '\x7b' ∧ firstPre ≠ [] then
        if ¬(noisySub firstPre) ∧ pyStrip firstPre ≠ [] then [printEnd firstPre]
        else []
      else []
    let combined2 :=
      if combined.contains '\x7b' ∧ firstPre ≠ [] then
        combined.dropWhile (fun c => c ≠ '\x7b')
      else combined
    let parts := (splitJsonStream combined2).1
    let pending2 := (splitJsonStream combined2).2
    if parts ≠ [] then
      let f := handleParts loads hide now parts
      (pre ++ f.1, pending2, f.2)
    else if pending2 ≠ [] then (pre, pending2, none)
    else if noisySub combined2 then (pre, [], none)
    else (pre ++ [printEnd combined2], [], none)

/-- The stream driver's mutable state: the `last_token_count` slot and
the pending reassembly buffer. -/
structure DrvSt where
  lastTC : Option Json
  pending : List Char

/-- Apply a slot write. -/
def applyWrite (old : Option Json) : Option (Option Json) → Option Json
  | some w => w
  | none => old

/-- run_codex's streaming loop over the child's stdout lines. -/
def runLoop (loads : List Char → Option Json) (hide : List (List Char))
    (now : List Char) : List (List Char) → DrvSt → List (List Char) × DrvSt
  | [], st => ([], st)
  | line :: rest, st =>
    let r := stepLine loads hide now st.pending line
    let st2 : DrvSt := ⟨applyWrite st.lastTC r.2.2, r.2.1⟩
    let f := runLoop loads hide now rest st2
    (r.1 ++ f.1, f.2)

/-- The raw-tail fallback of the end-of-stream flush (codex.py lines
558-565). -/
def flushFallback (pending : List Char) :
    List (List Char) × Option (Option Json) :=
  if noisySub pending then ([], none) else ([pending ++ ['\n']], none)

/-- run_codex's end-of-stream flush of the pending buffer (codex.py
lines 550-565).  After it, run_codex prints nothing further from the
stream: the `last_token_count` slot is never emitted (line 570). -/
def flushTail (loads : List Char → Option Json) (hide : List (List Char))
    (now : List Char) (pending : List Char) :
    List (List Char) × Option (Option Json) :=
  if pyStrip pending = [] then ([], none)
  else
    match loads pending with
    | some j =>
      if j.isObj then
        match handleObjE hide now j with
        | .ok r => r
        | .error _ => flushFallback pending
      else ([pending ++ ['\n']], none)
    | none => flushFallback pending

/-- All stream-derived output of codex.py `run_codex` from a given
driver state: the loop over stdout lines followed by the
end-of-stream flush. -/
def runCodexFrom (loads : List Char → Option Json) (hide : List (List Char))
    (now : List Char) (lines : List (List Char)) (st : DrvSt) :
    List (List Char) :=
  let r := runLoop loads hide now lines st
  r.1 ++ (flushTail loads hide now r.2.pending).1

/-- codex.py `run_codex`'s stream processing: the suppressed set is
computed from the two environment variables, the slot and pending
buffer start empty. -/
def runCodex (loads : List Char → Option Json) (env1 env2 now : List Char)
    (lines : List (List Char)) : List (List Char) :=
  runCodexFrom loads (computeHideTypes env1 env2) now lines ⟨none, []⟩

/-- gemini.py `run_gemini`'s end-of-stream flush of the pending buffer
(lines 397-402).  The formatter `_format_event_pretty` is abstracted
as a parameter; it is only reached when the tail parses. -/
def geminiFlushTail (loads : List Char → Option Json)
    (fmt : Json → List Char) (pending : List Char) : List (List Char) :=
  if pyStrip pending = [] then []
  else
    match loads pending with
    | some j => [fmt j ++ ['\n']]
    | none => [pending ++ ['\n']]

/-- Python `x.get(k)` where `x` may not be a dict (raises then). -/
def pyGetE (j : Json) (k : List Char) : Except Unit (Option Json) :=
  if j.isObj then .ok (j.get k) else .error ()

/-- Python `x.get(k, dflt)`, raising when `x` is not a dict. -/
def pyGetDE (j : Json) (k : List Char) (dflt : Json) : Except Unit Json := do
  let r ← pyGetE j k
  pure (r.getD dflt)

/-- Python `fetched == "lit"` for a fetched (possibly absent) value. -/
def isStrVal (o : Option Json) (s : List Char) : Bool :=
  match o with
  | some (.str t) => t == s
  | _ => false

/-- A value used where Python requires `str`; raises otherwise. -/
def asStrE : Json → Except Unit (List Char)
  | .str s => .ok s
  | _ => .error ()

/-- Python `for x in v`: lists iterate elements, strings iterate
one-character strings, dicts iterate keys, scalars raise. -/
def pyIterE : Json → Except Unit (List Json)
  | .arr xs => .ok xs
  | .str s => .ok (s.map (fun c => Json.str [c]))
  | .obj fs => .ok (fs.map (fun kv => Json.str kv.1))
  | _ => .error ()

/-- The counter metadata value `f"#{self.message_counter}"`. -/
def counterVal (counter : Nat) : Json :=
  .str ('#' :: natReprCh counter)

/-- claude.py `pretty_format_json`'s generic branch (lines 484-502):
merge `datetime` and `counter` with the whole object, splitting out a
multi-line string `result` field. -/
def claudeGeneric (counter : Nat) (now : List Char) (data : Json) :
    Except Unit (List Char) := do
  let fields ← match data with
    | .obj fs => pure fs
    | _ => Except.error ()
  let output := dmerge [("datetime".data, Json.str now),
    ("counter".data, counterVal counter)] fields
  match dlookup "result".data output with
  | some (.str s) =>
    if s.contains '\n' then
      pure (jdumps (.obj (dpop output "result".data)) ++ "\nresult:\n".data ++ s)
    else pure (jdumps (.obj output))
  | _ => pure (jdumps (.obj output))

/-- Body of claude.py `pretty_format_json`'s try-block (lines 325-502),
acting on the parsed line `data` with the already-incremented message
counter; exceptions are modelled as `.error`. -/
def claudeCore (counter : Nat) (truncN : Int) (now : List Char)
    (data : Json) : Except Unit (List Char) := do
  let ty ← pyGetE data "type".data
  if isStrVal ty "user".data then
    let message ← pyGetDE data "message".data (.obj [])
    let contentList ← pyGetDE message "content".data (.arr [])
    let items ← pyIterE contentList
    let textContent : Json :=
      match items.find? (fun it => it.isObj && isStrVal (it.get "type".data) "text".data) with
      | some it => (it.get "text".data).getD (.str [])
      | none => .str []
    let textContent2 ←
      if truncN ≠ -1 then do
        let s ← asStrE textContent
        let lines := pySplitOn '\n' s
        if (lines.length : Int) > truncN then
          pure (Json.str (List.intercalate ['\n'] (pySliceTo truncN lines) ++
            "\n[Truncated...]".data))
        else pure textContent
      else pure textContent
    let multi ← pyInStrE '\n' textContent2
    if multi then do
      let s ← asStrE textContent2
      pure (jdumps (.obj [("type".data, .str "user".data),
        ("datetime".data, .str now), ("counter".data, counterVal counter)]) ++
        "\ncontent:\n".data ++ s)
    else
      pure (jdumps (.obj [("type".data, .str "user".data),
        ("datetime".data, .str now), ("counter".data, counterVal counter),
        ("content".data, textContent2)]))
  else if isStrVal ty "assistant".data then
    let message ← pyGetDE data "message".data (.obj [])
    let contentList ← pyGetDE message "content".data (.arr [])
    let items ← pyIterE contentList
    let first := items.find? (fun it => it.isObj &&
      (isStrVal (it.get "type".data) "text".data ||
        isStrVal (it.get "type".data) "tool_use".data))
    let textContent : Json :=
      match first with
      | some it =>
        if isStrVal (it.get "type".data) "text".data then
          (it.get "text".data).getD (.str [])
        else .str []
      | none => .str []
    let toolUse : Option (Json × Json) :=
      match first with
      | some it =>
        if isStrVal (it.get "type".data) "tool_use".data then
          some ((it.get "name".data).getD (.str []),
                (it.get "input".data).getD (.obj []))
        else none
      | none => none
    match toolUse with
    | some (nm, inp) => do
      let promptField ← pyGetDE inp "prompt".data (.str [])
      match promptField with
      | .str s =>
        if s.contains '\n' then do
          let inpFields ← match inp with
            | .obj fs => pure fs
            | _ => Except.error ()
          let toolUseCopy := Json.obj [("name".data, nm),
            ("input".data, .obj (inpFields.filter (fun kv => !(kv.1 == "prompt".data))))]
          pure (jdumps (.obj [("type".data, .str "assistant".data),
            ("datetime".data, .str now), ("counter".data, counterVal counter),
            ("tool_use".data, toolUseCopy)]) ++ "\nprompt:\n".data ++ s)
        else
          pure (jdumps (.obj [("type".data, .str "assistant".data),
            ("datetime".data, .str now), ("counter".data, counterVal counter),
            ("tool_use".data, Json.obj [("name".data, nm), ("input".data, inp)])]))
      | _ =>
        pure (jdumps (.obj [("type".data, .str "assistant".data),
          ("datetime".data, .str now), ("counter".data, counterVal counter),
          ("tool_use".data, Json.obj [("name".data, nm), ("input".data, inp)])]))
    | none => do
      let multi ← pyInStrE '\n' textContent
      if multi then do
        let s ← asStrE textContent
        pure (jdumps (.obj [("type".data, .str "assistant".data),
          ("datetime".data, .str now), ("counter".data, counterVal counter)]) ++
          "\ncontent:\n".data ++ s)
      else
        pure (jdumps (.obj [("type".data, .str "assistant".data),
          ("datetime".data, .str now), ("counter".data, counterVal counter),
          ("content".data, textContent)]))
  else
    let message ← pyGetDE data "message".data (.obj [])
    let contentList ← pyGetDE message "content".data (.arr [])
    match contentList with
    | .arr (nested :: _) =>
      if nested.isObj && isStrVal (nested.get "type".data) "tool_result".data then
        let flattened0 : List (List Char × Json) :=
          [("datetime".data, .str now), ("counter".data, counterVal counter)]
        let flattened1 :=
          if (nested.get "tool_use_id".data).isSome then
            dset flattened0 "tool_use_id".data ((nested.get "tool_use_id".data).getD .null)
          else flattened0
        let flattened2 := dset flattened1 "type".data ((nested.get "type".data).getD .null)
        let nestedContent := (nested.get "content".data).getD (.str [])
        match nestedContent with
        | .str s =>
          if s.contains '\n' then
            pure (jdumps (.obj flattened2) ++ "\ncontent:\n".data ++ s)
          else
            pure (jdumps (.obj (dset flattened2 "content".data nestedContent)))
        | _ => pure (jdumps (.obj (dset flattened2 "content".data nestedContent)))
      else
        claudeGeneric counter now data
    | _ => claudeGeneric counter now data

/-- claude.py `pretty_format_json` acting on the parse result of one
line: `parsed = none` models `json.JSONDecodeError` (line returned
unchanged, counter not advanced); other exceptions return the line
unchanged after the counter was advanced. -/
def claudePrettyFormat (truncN : Int) (now : List Char) (counter : Nat)
    (parsed : Option Json) (rawLine : List Char) : List Char × Nat :=
  match parsed with
  | none => (rawLine, counter)
  | some data =>
    let c2 := counter + 1
    match claudeCore c2 truncN now data with
    | .ok out => (out, c2)
    | .error _ => (rawLine, c2)

/-- A canonical user event whose extracted text is `text`. -/
def userEvent (text : List Char) : Json :=
  Json.obj [("type".data, .str "user".data),
    ("message".data, .obj [("content".data, .arr
      [Json.obj [("type".data, .str "text".data), ("text".data, .str text)]])])]

/-- The user-branch header of the Claude renderer. -/
def userMeta (counter : Nat) (now : List Char) : List (List Char × Json) :=
  [("type".data, .str "user".data), ("datetime".data, .str now),
   ("counter".data, counterVal counter)]

/-- Concrete objects for the reassembly witness: the second object's
string value contains brace characters and an escaped quote. -/
def c1vs : List Json :=
  [Json.obj [("type".data, Json.str "x".data)],
   Json.obj [("text".data, Json.str "a \x7d b \x7b \"q\" c".data)]]

/-- A two-chunk split of the concatenated witness objects whose split
point falls inside the second object's string literal. -/
def c1chunks : List (List Char) :=
  [((c1vs.map jdumps).flatten).take 30, ((c1vs.map jdumps).flatten).drop 30]

/-- The spec's brace-safety example object
`\x7b"type":"x","text":"a \x7d b \x7b c"\x7d`. -/
def c6obj : Json :=
  Json.obj [("type".data, Json.str "x".data),
            ("text".data, Json.str "a \x7d b \x7b c".data)]

/-- The first line of the spec's two-line scenario (one complete
envelope-schema object; the string value contains an escaped newline). -/
def c9obj1 : List Char :=
  "\x7b\"msg\":\x7b\"type\":\"agent_message\",\"message\":\"Hello\\nWorld\"\x7d\x7d".data

/-- The second line of the scenario (a `token_count` envelope). -/
def c9obj2 : List Char :=
  "\x7b\"msg\":\x7b\"type\":\"token_count\",\"input\":5\x7d\x7d".data

/-- `json.loads c9obj1`. -/
def c9val1 : Json :=
  .obj [("msg".data, .obj [("type".data, .str "agent_message".data),
    ("message".data, .str "Hello\nWorld".data)])]

/-- `json.loads c9obj2`. -/
def c9val2 : Json :=
  .obj [("msg".data, .obj [("type".data, .str "token_count".data),
    ("input".data, .num 5)])]

/-- A concrete parse function agreeing with `json.loads` on the two
scenario lines (used by the scenario witness). -/
def c9loads : List Char → Option Json := fun t =>
  if t == c9obj1 then some c9val1
  else if t == c9obj2 then some c9val2
  else none

/-- The `msg` dict considered by `_normalize_event` (line 361): the
`msg` field when it is a dict, else the empty dict. -/
def msgObjOf (o : Json) : Json :=
  match o.get "msg".data with
  | some m => if m.isObj then m else .obj []
  | none => .obj []

/-- The `item` dict considered by `_normalize_event` (line 363). -/
def itemObjOf (o : Json) : Option Json :=
  match o.get "item".data with
  | some i => if i.isObj then some i else none
  | none => none

/-- The header-key property of C5: a `type` and a `datetime` entry and
no `counter` entry. -/
def hdrKeysOK (h : List (List Char × Json)) : Prop :=
  dHasKey h "type".data = true ∧ dHasKey h "datetime".data = true ∧
  dHasKey h "counter".data = false

/-! ### Scanner correctness: the codex reassembler -/

theorem scanFrom_nil (s : ScanState) : scanFrom s [] = s := rfl

theorem scanFrom_cons (s : ScanState) (c : Char) (l : List Char) :
    scanFrom s (c :: l) = scanFrom (codexStep s c) l := rfl

theorem scanFrom_append (s : ScanState) (a b : List Char) :
    scanFrom s (a ++ b) = scanFrom (scanFrom s a) b := by
  simp [scanFrom]

theorem clearObjs_clearObjs (s : ScanState) :
    clearObjs (clearObjs s) = clearObjs s := rfl

/-- One scanner step only appends to the emitted-objects list; the rest
of the state does not depend on it. -/
theorem codexStep_objs_acc (s : ScanState) (c : Char) :
    codexStep s c =
      { codexStep (clearObjs s) c with
        objs := s.objs ++ (codexStep (clearObjs s) c).objs } := by
  obtain ⟨os, bf, d, istr, e, st⟩ := s
  simp only [codexStep, clearObjs]
  split_ifs <;> simp_all

/-- A whole scan only appends to the emitted-objects list. -/
theorem scanFrom_objs_acc (l : List Char) : ∀ s : ScanState,
    scanFrom s l =
      { scanFrom (clearObjs s) l with
        objs := s.objs ++ (scanFrom (clearObjs s) l).objs } := by
  induction l with
  | nil =>
    intro s
    obtain ⟨os, bf, d, istr, e, st⟩ := s
    simp [scanFrom, clearObjs]
  | cons c rest ih =>
    intro s
    rw [scanFrom_cons, scanFrom_cons]
    rw [codexStep_objs_acc s c]
    rw [ih { codexStep (clearObjs s) c with
      objs := s.objs ++ (codexStep (clearObjs s) c).objs }]
    rw [ih (codexStep (clearObjs s) c)]
    simp [clearObjs, List.append_assoc]

/-- Outside a string literal the escape flag is clear, and rescanning
the pending buffer from the initial state reproduces the current state
with no emissions: the two invariants of the scanner preserved by one
step. -/
theorem codexStep_good (s : ScanState) (c : Char)
    (h1 : scanFrom initScan s.buf = clearObjs s)
    (h2 : s.inStr = false → s.esc = false) :
    scanFrom initScan (codexStep s c).buf = clearObjs (codexStep s c) ∧
      ((codexStep s c).inStr = false → (codexStep s c).esc = false) := by
  obtain ⟨os, bf, d, istr, e, st⟩ := s
  have hsnoc : ∀ x : Char, scanFrom initScan (bf ++ [x]) =
      codexStep (ScanState.mk [] bf d istr e st) x := by
    intro x
    rw [scanFrom_append, h1]
    rfl
  simp only [codexStep]
  split_ifs with hin hesc hbs hqu hqu2 hob hcb hdone hstart <;>
    constructor <;>
    first
      | (intro hh; simp_all [clearObjs])
      | (simp only [] at hsnoc ⊢;
         rw [hsnoc]; simp_all [codexStep, clearObjs])
      | simp_all [clearObjs]
  all_goals rfl

/-- The scanner invariants hold along any scan. -/
theorem scanFrom_good (l : List Char) : ∀ s : ScanState,
    scanFrom initScan s.buf = clearObjs s → (s.inStr = false → s.esc = false) →
    scanFrom initScan (scanFrom s l).buf = clearObjs (scanFrom s l) ∧
      ((scanFrom s l).inStr = false → (scanFrom s l).esc = false) := by
  induction l with
  | nil => intro s h1 h2; exact ⟨h1, h2⟩
  | cons c rest ih =>
    intro s h1 h2
    rw [scanFrom_cons]
    have h := codexStep_good s c h1 h2
    exact ih (codexStep s c) h.1 h.2

/-- The scanner invariants hold for the state reached from the initial
state. -/
theorem scanFrom_init_good (l : List Char) :
    scanFrom initScan (scanFrom initScan l).buf = clearObjs (scanFrom initScan l) :=
  (scanFrom_good l initScan rfl (fun _ => rfl)).1

/-- Glue lemma: splitting `a ++ b` in one call is the same as splitting
`a` and then splitting its remainder prepended to `b`. -/
theorem splitJsonStream_append (a b : List Char) :
    splitJsonStream (a ++ b) =
      ((splitJsonStream a).1 ++ (splitJsonStream ((splitJsonStream a).2 ++ b)).1,
       (splitJsonStream ((splitJsonStream a).2 ++ b)).2) := by
  unfold splitJsonStream
  rw [scanFrom_append, scanFrom_append, scanFrom_init_good a]
  rw [scanFrom_objs_acc b (scanFrom initScan a)]

/-- Feeding chunks with carried remainders equals scanning the whole
concatenation at once, relative to a common previously-scanned text. -/
theorem feedFrom_eq_split (chunks : List (List Char)) : ∀ a : List Char,
    splitJsonStream (a ++ chunks.flatten) =
      ((splitJsonStream a).1 ++ (feedFrom (splitJsonStream a).2 chunks).1,
       (feedFrom (splitJsonStream a).2 chunks).2) := by
  induction chunks with
  | nil => intro a; simp [feedFrom]
  | cons ch rest ih =>
    intro a
    have h1 : a ++ (ch :: rest).flatten = (a ++ ch) ++ rest.flatten := by
      simp [List.flatten]
    rw [h1, ih (a ++ ch)]
    rw [splitJsonStream_append a ch]
    simp [feedFrom, List.append_assoc]

/-- Feeding chunks through the codex reassembler is equivalent to
splitting their concatenation in one call. -/
theorem feedAll_eq_split (chunks : List (List Char)) :
    feedAll chunks = splitJsonStream chunks.flatten := by
  have h := feedFrom_eq_split chunks []
  have h0 : splitJsonStream [] = ([], []) := rfl
  rw [h0] at h
  simp at h
  rw [feedAll]
  exact h.symm

/-! ### Serialized objects are emitted whole by the codex scanner -/

theorem stripFix (p : Char → Bool) (hb : p '\x7b' = false) (he : p '\x7d' = false)
    (m : List Char) :
    ((('\x7b' :: (m ++ ['\x7d'])).dropWhile p).reverse.dropWhile p).reverse =
      '\x7b' :: (m ++ ['\x7d']) := by
  have h1 : ('\x7b' :: (m ++ ['\x7d'])).dropWhile p = '\x7b' :: (m ++ ['\x7d']) := by
    simp [List.dropWhile_cons, hb]
  rw [h1]
  have h2 : ('\x7b' :: (m ++ ['\x7d'])).reverse = '\x7d' :: (m.reverse ++ ['\x7b']) := by
    simp
  rw [h2]
  have h3 : ('\x7d' :: (m.reverse ++ ['\x7b'])).dropWhile p =
      '\x7d' :: (m.reverse ++ ['\x7b']) := by
    simp [List.dropWhile_cons, he]
  rw [h3, ← h2, List.reverse_reverse]

/-- Stripping whitespace and stray quotes leaves a brace-delimited
candidate unchanged. -/
theorem stripAll_balanced (m : List Char) :
    stripQuotes (pyStrip ('\x7b' :: (m ++ ['\x7d']))) = '\x7b' :: (m ++ ['\x7d']) := by
  unfold pyStrip stripQuotes
  rw [stripFix isPyWs (by decide) (by decide) m,
    stripFix isQuoteCh (by decide) (by decide) m]

theorem codexStep_neutral (s : ScanState) (c : Char) (h1 : s.inStr = false)
    (h2 : c ≠ '\"') (h3 : c ≠ '\x7b') (h4 : c ≠ '\x7d') (h5 : s.started = true) :
    codexStep s c = { s with buf := s.buf ++ [c] } := by
  obtain ⟨os, bf, d, istr, e, st⟩ := s
  simp_all [codexStep]

theorem codexStep_openQuote (s : ScanState) (h1 : s.inStr = false) :
    codexStep s '\"' = { s with inStr := true, buf := s.buf ++ ['\"'] } := by
  obtain ⟨os, bf, d, istr, e, st⟩ := s
  simp_all [codexStep]

theorem codexStep_open (s : ScanState) (h1 : s.inStr = false) :
    codexStep s '\x7b' =
      { s with depth := s.depth + 1, started := true, buf := s.buf ++ ['\x7b'] } := by
  obtain ⟨os, bf, d, istr, e, st⟩ := s
  simp_all [codexStep]

theorem codexStep_closeNoEmit (s : ScanState) (h1 : s.inStr = false)
    (h2 : ¬(s.started = true ∧ s.depth - 1 = 0)) :
    codexStep s '\x7d' =
      { s with depth := s.depth - 1, buf := s.buf ++ ['\x7d'] } := by
  obtain ⟨os, bf, d, istr, e, st⟩ := s
  simp_all [codexStep]

theorem codexStep_closeQuote (s : ScanState) (h1 : s.inStr = true)
    (h2 : s.esc = false) :
    codexStep s '\"' = { s with inStr := false, buf := s.buf ++ ['\"'] } := by
  obtain ⟨os, bf, d, istr, e, st⟩ := s
  simp_all [codexStep]

/-- Scanning a run of characters that are not quotes or braces, outside
any string with an object started, appends them to the buffer. -/
theorem scanFrom_neutralList (l : List Char)
    (hl : ∀ c ∈ l, c ≠ '\"' ∧ c ≠ '\x7b' ∧ c ≠ '\x7d') : ∀ s : ScanState,
    s.inStr = false → s.started = true →
    scanFrom s l = { s with buf := s.buf ++ l } := by
  induction l with
  | nil => intro s _ _; simp [scanFrom]
  | cons c rest ih =>
    intro s h1 h2
    have hc := hl c (List.mem_cons_self c rest)
    rw [scanFrom_cons, codexStep_neutral s c h1 hc.1 hc.2.1 hc.2.2 h2]
    have ht := ih (fun x hx => hl x (List.mem_cons_of_mem c hx))
      { s with buf := s.buf ++ [c] } h1 h2
    rw [ht]
    simp

theorem hexDig_ne (n : Nat) : hexDig n ≠ '\\' ∧ hexDig n ≠ '\"' := by
  unfold hexDig
  split <;> exact (by decide)

theorem digitCh_ne (n : Nat) :
    digitCh n ≠ '\"' ∧ digitCh n ≠ '\x7b' ∧ digitCh n ≠ '\x7d' := by
  unfold digitCh
  split <;> exact (by decide)

/-- Characters of the decimal representation are digits (in particular
neither quotes nor braces). -/
theorem natReprAux_chars (fuel : Nat) : ∀ (n : Nat) (acc : List Char),
    (∀ c ∈ acc, c ≠ '\"' ∧ c ≠ '\x7b' ∧ c ≠ '\x7d') →
    ∀ c ∈ natReprAux fuel n acc, c ≠ '\"' ∧ c ≠ '\x7b' ∧ c ≠ '\x7d' := by
  induction fuel with
  | zero => intro n acc hacc c hc; exact hacc c hc
  | succ fuel ih =>
    intro n acc hacc c hc
    rw [natReprAux] at hc
    split at hc
    · rcases List.mem_cons.mp hc with h | h
      · subst h; exact digitCh_ne n
      · exact hacc c h
    · refine ih (n / 10) (digitCh (n % 10) :: acc) ?_ c hc
      intro x hx
      rcases List.mem_cons.mp hx with h | h
      · subst h; exact digitCh_ne (n % 10)
      · exact hacc x h

theorem intRepr_chars (n : Int) :
    ∀ c ∈ intRepr n, c ≠ '\"' ∧ c ≠ '\x7b' ∧ c ≠ '\x7d' := by
  intro c hc
  unfold intRepr at hc
  split at hc
  · rcases List.mem_cons.mp hc with h | h
    · subst h; exact (by decide)
    · exact natReprAux_chars _ _ [] (by intro x hx; cases hx) c h
  · exact natReprAux_chars _ _ [] (by intro x hx; cases hx) c hc

/-- Scanning one escaped character inside a string literal appends it
and stays inside the string with the escape flag clear. -/
theorem scanFrom_jescChar (c : Char) (s : ScanState) (h1 : s.inStr = true)
    (h2 : s.esc = false) :
    scanFrom s (jesc c) = { s with buf := s.buf ++ jesc c } := by
  obtain ⟨os, bf, d, istr, e, st⟩ := s
  simp only at h1 h2
  subst h1
  subst h2
  unfold jesc
  split_ifs with e1 e2 e3 e4 e5 e6 e7 e8 <;>
    simp_all [scanFrom, codexStep, (hexDig_ne (c.toNat / 16)).1,
      (hexDig_ne (c.toNat / 16)).2, (hexDig_ne (c.toNat % 16)).1,
      (hexDig_ne (c.toNat % 16)).2]

/-- Scanning an escaped string body inside a string literal appends it
and stays inside the string. -/
theorem scanFrom_strBody (str : List Char) : ∀ s : ScanState, s.inStr = true →
    s.esc = false →
    scanFrom s (str.map jesc).flatten =
      { s with buf := s.buf ++ (str.map jesc).flatten } := by
  induction str with
  | nil => intro s _ _; simp [scanFrom]
  | cons c rest ih =>
    intro s h1 h2
    rw [List.map_cons, List.flatten_cons, scanFrom_append]
    rw [scanFrom_jescChar c s h1 h2]
    have ht := ih { s with buf := s.buf ++ jesc c } h1 h2
    rw [ht]
    simp

theorem scanFrom_jstr (str : List Char) (s : ScanState) (h1 : s.inStr = false)
    (h2 : s.esc = false) :
    scanFrom s (jstr str) = { s with buf := s.buf ++ jstr str } := by
  unfold jstr
  rw [show ('\"' :: (str.map jesc).flatten ++ ['\"'] : List Char) =
    '\"' :: ((str.map jesc).flatten ++ ['\"']) from by simp]
  rw [scanFrom_cons, codexStep_openQuote s h1]
  rw [scanFrom_append]
  have hb := scanFrom_strBody str
    { s with inStr := true, buf := s.buf ++ ['\"'] } rfl h2
  rw [hb]
  rw [show ∀ t : ScanState, scanFrom t ['\"'] = codexStep t '\"' from fun _ => rfl]
  have hc := codexStep_closeQuote
    { s with inStr := true, buf := (s.buf ++ ['\"']) ++ (str.map jesc).flatten } rfl h2
  rw [hc]
  obtain ⟨os, bf, d, istr, e, st⟩ := s
  simp_all

mutual

/-- Scanning a dumped JSON value inside an already-started object
(depth at least one, outside any string) appends it to the buffer and
changes nothing else; in particular no object is emitted early. -/
theorem jdumps_scan (v : Json) : ∀ s : ScanState, s.inStr = false →
    s.esc = false → s.started = true → 1 ≤ s.depth →
    scanFrom s (jdumps v) = { s with buf := s.buf ++ jdumps v } := by
  cases v with
  | null =>
    intro s h1 h2 h3 h4
    exact scanFrom_neutralList "null".data (by decide) s h1 h3
  | bool b =>
    intro s h1 h2 h3 h4
    cases b
    · exact scanFrom_neutralList "false".data (by decide) s h1 h3
    · exact scanFrom_neutralList "true".data (by decide) s h1 h3
  | num n =>
    intro s h1 h2 h3 h4
    exact scanFrom_neutralList (intRepr n) (intRepr_chars n) s h1 h3
  | str s0 =>
    intro s h1 h2 h3 h4
    exact scanFrom_jstr s0 s h1 h2
  | arr xs =>
    intro s h1 h2 h3 h4
    show scanFrom s ('[' :: (jdumpsArr xs ++ [']'])) =
      { s with buf := s.buf ++ jdumps (.arr xs) }
    rw [scanFrom_cons, codexStep_neutral s '[' h1 (by decide) (by decide) (by decide) h3]
    rw [scanFrom_append]
    rw [jdumpsArr_scan xs]
    · rw [show ∀ t : ScanState, scanFrom t [']'] = codexStep t ']' from fun _ => rfl]
      rw [codexStep_neutral]
      · simp [jdumps]
      · exact h1
      · decide
      · decide
      · decide
      · exact h3
    · exact h1
    · exact h2
    · exact h3
    · exact h4
  | obj fs =>
    intro s h1 h2 h3 h4
    show scanFrom s ('\x7b' :: (jdumpsObj fs ++ ['\x7d'])) =
      { s with buf := s.buf ++ jdumps (.obj fs) }
    rw [scanFrom_cons, codexStep_open s h1]
    rw [scanFrom_append]
    rw [jdumpsObj_scan fs]
    · rw [show ∀ t : ScanState, scanFrom t ['\x7d'] = codexStep t '\x7d' from fun _ => rfl]
      rw [codexStep_closeNoEmit]
      · simp [jdumps]
        exact h3
      · exact h1
      · simp
        omega
    · exact h1
    · exact h2
    · rfl
    · simp
      omega

/-- `jdumps_scan` for comma-separated array elements. -/
theorem jdumpsArr_scan (xs : List Json) : ∀ s : ScanState, s.inStr = false →
    s.esc = false → s.started = true → 1 ≤ s.depth →
    scanFrom s (jdumpsArr xs) = { s with buf := s.buf ++ jdumpsArr xs } := by
  cases xs with
  | nil =>
    intro s h1 h2 h3 h4
    simp [jdumpsArr, scanFrom]
  | cons x rest =>
    cases rest with
    | nil =>
      intro s h1 h2 h3 h4
      exact jdumps_scan x s h1 h2 h3 h4
    | cons y rest2 =>
      intro s h1 h2 h3 h4
      show scanFrom s (jdumps x ++ ',' :: ' ' :: jdumpsArr (y :: rest2)) =
        { s with buf := s.buf ++ (jdumps x ++ ',' :: ' ' :: jdumpsArr (y :: rest2)) }
      rw [scanFrom_append]
      rw [jdumps_scan x s h1 h2 h3 h4]
      rw [show (',' :: ' ' :: jdumpsArr (y :: rest2) : List Char) =
        [',', ' '] ++ jdumpsArr (y :: rest2) from rfl]
      rw [scanFrom_append]
      rw [scanFrom_neutralList [',', ' '] (by decide)]
      · rw [jdumpsArr_scan (y :: rest2)]
        · simp
        · exact h1
        · exact h2
        · exact h3
        · exact h4
      · exact h1
      · exact h3

/-- `jdumps_scan` for comma-separated object entries. -/
theorem jdumpsObj_scan (fs : List (List Char × Json)) : ∀ s : ScanState,
    s.inStr = false → s.esc = false → s.started = true → 1 ≤ s.depth →
    scanFrom s (jdumpsObj fs) = { s with buf := s.buf ++ jdumpsObj fs } := by
  cases fs with
  | nil =>
    intro s h1 h2 h3 h4
    simp [jdumpsObj, scanFrom]
  | cons kv rest =>
    cases rest with
    | nil =>
      intro s h1 h2 h3 h4
      obtain ⟨k, v⟩ := kv
      show scanFrom s (jstr k ++ ':' :: ' ' :: jdumps v) =
        { s with buf := s.buf ++ (jstr k ++ ':' :: ' ' :: jdumps v) }
      rw [scanFrom_append]
      rw [scanFrom_jstr k s h1 h2]
      rw [show (':' :: ' ' :: jdumps v : List Char) = [':', ' '] ++ jdumps v from rfl]
      rw [scanFrom_append]
      rw [scanFrom_neutralList [':', ' '] (by decide)]
      · rw [jdumps_scan v]
        · simp
        · exact h1
        · exact h2
        · exact h3
        · exact h4
      · exact h1
      · exact h3
    | cons kv2 rest2 =>
      intro s h1 h2 h3 h4
      obtain ⟨k, v⟩ := kv
      show scanFrom s (jstr k ++ ':' :: ' ' :: jdumps v ++ ',' :: ' ' :: jdumpsObj (kv2 :: rest2)) =
        { s with buf := s.buf ++
          (jstr k ++ ':' :: ' ' :: jdumps v ++ ',' :: ' ' :: jdumpsObj (kv2 :: rest2)) }
      rw [scanFrom_append]
      rw [scanFrom_append]
      rw [scanFrom_jstr k s h1 h2]
      rw [show (':' :: ' ' :: jdumps v : List Char) = [':', ' '] ++ jdumps v from rfl]
      rw [scanFrom_append]
      rw [scanFrom_neutralList [':', ' '] (by decide)]
      · rw [jdumps_scan v]
        · rw [show (',' :: ' ' :: jdumpsObj (kv2 :: rest2) : List Char) =
            [',', ' '] ++ jdumpsObj (kv2 :: rest2) from rfl]
          rw [scanFrom_append]
          rw [scanFrom_neutralList [',', ' '] (by decide)]
          · rw [jdumpsObj_scan (kv2 :: rest2)]
            · simp
            · exact h1
            · exact h2
            · exact h3
            · exact h4
          · exact h1
          · exact h3
        · exact h1
        · exact h2
        · exact h3
        · exact h4
      · exact h1
      · exact h3

end

/-- The codex scanner emits a dumped top-level JSON object whole, with
empty remainder. -/
theorem splitJsonStream_jdumps_obj (fs : List (List Char × Json)) :
    splitJsonStream (jdumps (Json.obj fs)) = ([jdumps (Json.obj fs)], []) := by
  have hshape : jdumps (Json.obj fs) = '\x7b' :: (jdumpsObj fs ++ ['\x7d']) := rfl
  unfold splitJsonStream
  rw [hshape]
  rw [scanFrom_cons]
  rw [codexStep_open initScan rfl]
  rw [scanFrom_append]
  rw [jdumpsObj_scan fs]
  · rw [show ∀ t : ScanState, scanFrom t ['\x7d'] = codexStep t '\x7d' from fun _ => rfl]
    simp [codexStep, initScan, stripAll_balanced]
  · rfl
  · rfl
  · rfl
  · simp [initScan]

/-- The codex scanner splits a concatenation of dumped objects back
into exactly those objects. -/
theorem splitJsonStream_flat_objs (vs : List Json) (h : ∀ v ∈ vs, v.isObj = true) :
    splitJsonStream (vs.map jdumps).flatten = (vs.map jdumps, []) := by
  induction vs with
  | nil => rfl
  | cons v rest ih =>
    have hv : v.isObj = true := h v (List.mem_cons_self _ _)
    cases v with
    | obj fs =>
      rw [List.map_cons, List.flatten_cons]
      rw [splitJsonStream_append]
      rw [splitJsonStream_jdumps_obj fs]
      simp only [List.nil_append]
      rw [ih (fun x hx => h x (List.mem_cons_of_mem _ hx))]
      simp
    | null => simp [Json.isObj] at hv
    | bool b => simp [Json.isObj] at hv
    | num n => simp [Json.isObj] at hv
    | str s0 => simp [Json.isObj] at hv
    | arr xs => simp [Json.isObj] at hv

/-! ### The same development for the gemini scanner -/

theorem scanFromG_nil (s : ScanState) : scanFromG s [] = s := rfl

theorem scanFromG_cons (s : ScanState) (c : Char) (l : List Char) :
    scanFromG s (c :: l) = scanFromG (geminiStep s c) l := rfl

theorem scanFromG_append (s : ScanState) (a b : List Char) :
    scanFromG s (a ++ b) = scanFromG (scanFromG s a) b := by
  simp [scanFromG]


/-- One scanner step only appends to the emitted-objects list; the rest
of the state does not depend on it. -/
theorem geminiStep_objs_acc (s : ScanState) (c : Char) :
    geminiStep s c =
      { geminiStep (clearObjs s) c with
        objs := s.objs ++ (geminiStep (clearObjs s) c).objs } := by
  obtain ⟨os, bf, d, istr, e, st⟩ := s
  simp only [geminiStep, clearObjs]
  split_ifs <;> simp_all

/-- A whole scan only appends to the emitted-objects list. -/
theorem scanFromG_objs_acc (l : List Char) : ∀ s : ScanState,
    scanFromG s l =
      { scanFromG (clearObjs s) l with
        objs := s.objs ++ (scanFromG (clearObjs s) l).objs } := by
  induction l with
  | nil =>
    intro s
    obtain ⟨os, bf, d, istr, e, st⟩ := s
    simp [scanFromG, clearObjs]
  | cons c rest ih =>
    intro s
    rw [scanFromG_cons, scanFromG_cons]
    rw [geminiStep_objs_acc s c]
    rw [ih { geminiStep (clearObjs s) c with
      objs := s.objs ++ (geminiStep (clearObjs s) c).objs }]
    rw [ih (geminiStep (clearObjs s) c)]
    simp [clearObjs, List.append_assoc]


/-- Outside a string literal the escape flag is clear, and rescanning
the pending buffer from the initial state reproduces the current state
with no emissions: the two invariants of the scanner preserved by one
step. -/
theorem geminiStep_good (s : ScanState) (c : Char)
    (h1 : scanFromG initScan s.buf = clearObjs s)
    (h2 : s.inStr = false → s.esc = false) :
    scanFromG initScan (geminiStep s c).buf = clearObjs (geminiStep s c) ∧
      ((geminiStep s c).inStr = false → (geminiStep s c).esc = false) := by
  obtain ⟨os, bf, d, istr, e, st⟩ := s
  have hsnoc : ∀ x : Char, scanFromG initScan (bf ++ [x]) =
      geminiStep (ScanState.mk [] bf d istr e st) x := by
    intro x
    rw [scanFromG_append, h1]
    rfl
  simp only [geminiStep]
  split_ifs with hin hesc hbs hqu hqu2 hob hcb hdone hstart <;>
    constructor <;>
    first
      | (intro hh; simp_all [clearObjs])
      | (simp only [] at hsnoc ⊢;
         rw [hsnoc]; simp_all [geminiStep, clearObjs])
      | simp_all [clearObjs]
  all_goals rfl

/-- The scanner invariants hold along any scan. -/
theorem scanFromG_good (l : List Char) : ∀ s : ScanState,
    scanFromG initScan s.buf = clearObjs s → (s.inStr = false → s.esc = false) →
    scanFromG initScan (scanFromG s l).buf = clearObjs (scanFromG s l) ∧
      ((scanFromG s l).inStr = false → (scanFromG s l).esc = false) := by
  induction l with
  | nil => intro s h1 h2; exact ⟨h1, h2⟩
  | cons c rest ih =>
    intro s h1 h2
    rw [scanFromG_cons]
    have h := geminiStep_good s c h1 h2
    exact ih (geminiStep s c) h.1 h.2

/-- The scanner invariants hold for the state reached from the initial
state. -/
theorem scanFromG_init_good (l : List Char) :
    scanFromG initScan (scanFromG initScan l).buf = clearObjs (scanFromG initScan l) :=
  (scanFromG_good l initScan rfl (fun _ => rfl)).1

/-- Glue lemma: splitting `a ++ b` in one call is the same as splitting
`a` and then splitting its remainder prepended to `b`. -/
theorem splitJsonStreamG_append (a b : List Char) :
    splitJsonStreamG (a ++ b) =
      ((splitJsonStreamG a).1 ++ (splitJsonStreamG ((splitJsonStreamG a).2 ++ b)).1,
       (splitJsonStreamG ((splitJsonStreamG a).2 ++ b)).2) := by
  unfold splitJsonStreamG
  rw [scanFromG_append, scanFromG_append, scanFromG_init_good a]
  rw [scanFromG_objs_acc b (scanFromG initScan a)]

/-- Feeding chunks with carried remainders equals scanning the whole
concatenation at once, relative to a common previously-scanned text. -/
theorem feedFromG_eq_split (chunks : List (List Char)) : ∀ a : List Char,
    splitJsonStreamG (a ++ chunks.flatten) =
      ((splitJsonStreamG a).1 ++ (feedFromG (splitJsonStreamG a).2 chunks).1,
       (feedFromG (splitJsonStreamG a).2 chunks).2) := by
  induction chunks with
  | nil => intro a; simp [feedFromG]
  | cons ch rest ih =>
    intro a
    have h1 : a ++ (ch :: rest).flatten = (a ++ ch) ++ rest.flatten := by
      simp [List.flatten]
    rw [h1, ih (a ++ ch)]
    rw [splitJsonStreamG_append a ch]
    simp [feedFromG, List.append_assoc]

/-- Feeding chunks through the gemini reassembler is equivalent to
splitting their concatenation in one call. -/
theorem feedAllG_eq_split (chunks : List (List Char)) :
    feedAllG chunks = splitJsonStreamG chunks.flatten := by
  have h := feedFromG_eq_split chunks []
  have h0 : splitJsonStreamG [] = ([], []) := rfl
  rw [h0] at h
  simp at h
  rw [feedAllG]
  exact h.symm


theorem geminiStep_neutral (s : ScanState) (c : Char) (h1 : s.inStr = false)
    (h2 : c ≠ '\"') (h3 : c ≠ '\x7b') (h4 : c ≠ '\x7d') (h5 : s.started = true) :
    geminiStep s c = { s with buf := s.buf ++ [c] } := by
  obtain ⟨os, bf, d, istr, e, st⟩ := s
  simp_all [geminiStep]

theorem geminiStep_openQuote (s : ScanState) (h1 : s.inStr = false) :
    geminiStep s '\"' = { s with inStr := true, buf := s.buf ++ ['\"'] } := by
  obtain ⟨os, bf, d, istr, e, st⟩ := s
  simp_all [geminiStep]

theorem geminiStep_open (s : ScanState) (h1 : s.inStr = false) :
    geminiStep s '\x7b' =
      { s with depth := s.depth + 1, started := true, buf := s.buf ++ ['\x7b'] } := by
  obtain ⟨os, bf, d, istr, e, st⟩ := s
  simp_all [geminiStep]

theorem geminiStep_closeNoEmit (s : ScanState) (h1 : s.inStr = false)
    (h2 : ¬(s.started = true ∧ s.depth - 1 = 0)) :
    geminiStep s '\x7d' =
      { s with depth := s.depth - 1, buf := s.buf ++ ['\x7d'] } := by
  obtain ⟨os, bf, d, istr, e, st⟩ := s
  simp_all [geminiStep]

theorem geminiStep_closeQuote (s : ScanState) (h1 : s.inStr = true)
    (h2 : s.esc = false) :
    geminiStep s '\"' = { s with inStr := false, buf := s.buf ++ ['\"'] } := by
  obtain ⟨os, bf, d, istr, e, st⟩ := s
  simp_all [geminiStep]

/-- Scanning a run of characters that are not quotes or braces, outside
any string with an object started, appends them to the buffer. -/
theorem scanFromG_neutralList (l : List Char)
    (hl : ∀ c ∈ l, c ≠ '\"' ∧ c ≠ '\x7b' ∧ c ≠ '\x7d') : ∀ s : ScanState,
    s.inStr = false → s.started = true →
    scanFromG s l = { s with buf := s.buf ++ l } := by
  induction l with
  | nil => intro s _ _; simp [scanFromG]
  | cons c rest ih =>
    intro s h1 h2
    have hc := hl c (List.mem_cons_self c rest)
    rw [scanFromG_cons, geminiStep_neutral s c h1 hc.1 hc.2.1 hc.2.2 h2]
    have ht := ih (fun x hx => hl x (List.mem_cons_of_mem c hx))
      { s with buf := s.buf ++ [c] } h1 h2
    rw [ht]
    simp


/-- Scanning one escaped character inside a string literal appends it
and stays inside the string with the escape flag clear. -/
theorem scanFromG_jescChar (c : Char) (s : ScanState) (h1 : s.inStr = true)
    (h2 : s.esc = false) :
    scanFromG s (jesc c) = { s with buf := s.buf ++ jesc c } := by
  obtain ⟨os, bf, d, istr, e, st⟩ := s
  simp only at h1 h2
  subst h1
  subst h2
  unfold jesc
  split_ifs with e1 e2 e3 e4 e5 e6 e7 e8 <;>
    simp_all [scanFromG, geminiStep, (hexDig_ne (c.toNat / 16)).1,
      (hexDig_ne (c.toNat / 16)).2, (hexDig_ne (c.toNat % 16)).1,
      (hexDig_ne (c.toNat % 16)).2]

/-- Scanning an escaped string body inside a string literal appends it
and stays inside the string. -/
theorem scanFromG_strBody (str : List Char) : ∀ s : ScanState, s.inStr = true →
    s.esc = false →
    scanFromG s (str.map jesc).flatten =
      { s with buf := s.buf ++ (str.map jesc).flatten } := by
  induction str with
  | nil => intro s _ _; simp [scanFromG]
  | cons c rest ih =>
    intro s h1 h2
    rw [List.map_cons, List.flatten_cons, scanFromG_append]
    rw [scanFromG_jescChar c s h1 h2]
    have ht := ih { s with buf := s.buf ++ jesc c } h1 h2
    rw [ht]
    simp

theorem scanFromG_jstr (str : List Char) (s : ScanState) (h1 : s.inStr = false)
    (h2 : s.esc = false) :
    scanFromG s (jstr str) = { s with buf := s.buf ++ jstr str } := by
  unfold jstr
  rw [show ('\"' :: (str.map jesc).flatten ++ ['\"'] : List Char) =
    '\"' :: ((str.map jesc).flatten ++ ['\"']) from by simp]
  rw [scanFromG_cons, geminiStep_openQuote s h1]
  rw [scanFromG_append]
  have hb := scanFromG_strBody str
    { s with inStr := true, buf := s.buf ++ ['\"'] } rfl h2
  rw [hb]
  rw [show ∀ t : ScanState, scanFromG t ['\"'] = geminiStep t '\"' from fun _ => rfl]
  have hc := geminiStep_closeQuote
    { s with inStr := true, buf := (s.buf ++ ['\"']) ++ (str.map jesc).flatten } rfl h2
  rw [hc]
  obtain ⟨os, bf, d, istr, e, st⟩ := s
  simp_all


mutual

/-- Scanning a dumped JSON value inside an already-started object
(depth at least one, outside any string) appends it to the buffer and
changes nothing else; in particular no object is emitted early. -/
theorem jdumps_scan_g (v : Json) : ∀ s : ScanState, s.inStr = false →
    s.esc = false → s.started = true → 1 ≤ s.depth →
    scanFromG s (jdumps v) = { s with buf := s.buf ++ jdumps v } := by
  cases v with
  | null =>
    intro s h1 h2 h3 h4
    exact scanFromG_neutralList "null".data (by decide) s h1 h3
  | bool b =>
    intro s h1 h2 h3 h4
    cases b
    · exact scanFromG_neutralList "false".data (by decide) s h1 h3
    · exact scanFromG_neutralList "true".data (by decide) s h1 h3
  | num n =>
    intro s h1 h2 h3 h4
    exact scanFromG_neutralList (intRepr n) (intRepr_chars n) s h1 h3
  | str s0 =>
    intro s h1 h2 h3 h4
    exact scanFromG_jstr s0 s h1 h2
  | arr xs =>
    intro s h1 h2 h3 h4
    show scanFromG s ('[' :: (jdumpsArr xs ++ [']'])) =
      { s with buf := s.buf ++ jdumps (.arr xs) }
    rw [scanFromG_cons, geminiStep_neutral s '[' h1 (by decide) (by decide) (by decide) h3]
    rw [scanFromG_append]
    rw [jdumpsArr_scan_g xs]
    · rw [show ∀ t : ScanState, scanFromG t [']'] = geminiStep t ']' from fun _ => rfl]
      rw [geminiStep_neutral]
      · simp [jdumps]
      · exact h1
      · decide
      · decide
      · decide
      · exact h3
    · exact h1
    · exact h2
    · exact h3
    · exact h4
  | obj fs =>
    intro s h1 h2 h3 h4
    show scanFromG s ('\x7b' :: (jdumpsObj fs ++ ['\x7d'])) =
      { s with buf := s.buf ++ jdumps (.obj fs) }
    rw [scanFromG_cons, geminiStep_open s h1]
    rw [scanFromG_append]
    rw [jdumpsObj_scan_g fs]
    · rw [show ∀ t : ScanState, scanFromG t ['\x7d'] = geminiStep t '\x7d' from fun _ => rfl]
      rw [geminiStep_closeNoEmit]
      · simp [jdumps]
        exact h3
      · exact h1
      · simp
        omega
    · exact h1
    · exact h2
    · rfl
    · simp
      omega

/-- `jdumps_scan_g` for comma-separated array elements. -/
theorem jdumpsArr_scan_g (xs : List Json) : ∀ s : ScanState, s.inStr = false →
    s.esc = false → s.started = true → 1 ≤ s.depth →
    scanFromG s (jdumpsArr xs) = { s with buf := s.buf ++ jdumpsArr xs } := by
  cases xs with
  | nil =>
    intro s h1 h2 h3 h4
    simp [jdumpsArr, scanFromG]
  | cons x rest =>
    cases rest with
    | nil =>
      intro s h1 h2 h3 h4
      exact jdumps_scan_g x s h1 h2 h3 h4
    | cons y rest2 =>
      intro s h1 h2 h3 h4
      show scanFromG s (jdumps x ++ ',' :: ' ' :: jdumpsArr (y :: rest2)) =
        { s with buf := s.buf ++ (jdumps x ++ ',' :: ' ' :: jdumpsArr (y :: rest2)) }
      rw [scanFromG_append]
      rw [jdumps_scan_g x s h1 h2 h3 h4]
      rw [show (',' :: ' ' :: jdumpsArr (y :: rest2) : List Char) =
        [',', ' '] ++ jdumpsArr (y :: rest2) from rfl]
      rw [scanFromG_append]
      rw [scanFromG_neutralList [',', ' '] (by decide)]
      · rw [jdumpsArr_scan_g (y :: rest2)]
        · simp
        · exact h1
        · exact h2
        · exact h3
        · exact h4
      · exact h1
      · exact h3

/-- `jdumps_scan_g` for comma-separated object entries. -/
theorem jdumpsObj_scan_g (fs : List (List Char × Json)) : ∀ s : ScanState,
    s.inStr = false → s.esc = false → s.started = true → 1 ≤ s.depth →
    scanFromG s (jdumpsObj fs) = { s with buf := s.buf ++ jdumpsObj fs } := by
  cases fs with
  | nil =>
    intro s h1 h2 h3 h4
    simp [jdumpsObj, scanFromG]
  | cons kv rest =>
    cases rest with
    | nil =>
      intro s h1 h2 h3 h4
      obtain ⟨k, v⟩ := kv
      show scanFromG s (jstr k ++ ':' :: ' ' :: jdumps v) =
        { s with buf := s.buf ++ (jstr k ++ ':' :: ' ' :: jdumps v) }
      rw [scanFromG_append]
      rw [scanFromG_jstr k s h1 h2]
      rw [show (':' :: ' ' :: jdumps v : List Char) = [':', ' '] ++ jdumps v from rfl]
      rw [scanFromG_append]
      rw [scanFromG_neutralList [':', ' '] (by decide)]
      · rw [jdumps_scan_g v]
        · simp
        · exact h1
        · exact h2
        · exact h3
        · exact h4
      · exact h1
      · exact h3
    | cons kv2 rest2 =>
      intro s h1 h2 h3 h4
      obtain ⟨k, v⟩ := kv
      show scanFromG s (jstr k ++ ':' :: ' ' :: jdumps v ++ ',' :: ' ' :: jdumpsObj (kv2 :: rest2)) =
        { s with buf := s.buf ++
          (jstr k ++ ':' :: ' ' :: jdumps v ++ ',' :: ' ' :: jdumpsObj (kv2 :: rest2)) }
      rw [scanFromG_append]
      rw [scanFromG_append]
      rw [scanFromG_jstr k s h1 h2]
      rw [show (':' :: ' ' :: jdumps v : List Char) = [':', ' '] ++ jdumps v from rfl]
      rw [scanFromG_append]
      rw [scanFromG_neutralList [':', ' '] (by decide)]
      · rw [jdumps_scan_g v]
        · rw [show (',' :: ' ' :: jdumpsObj (kv2 :: rest2) : List Char) =
            [',', ' '] ++ jdumpsObj (kv2 :: rest2) from rfl]
          rw [scanFromG_append]
          rw [scanFromG_neutralList [',', ' '] (by decide)]
          · rw [jdumpsObj_scan_g (kv2 :: rest2)]
            · simp
            · exact h1
            · exact h2
            · exact h3
            · exact h4
          · exact h1
          · exact h3
        · exact h1
        · exact h2
        · exact h3
        · exact h4
      · exact h1
      · exact h3

end


/-- The gemini scanner emits a dumped top-level JSON object whole, with
empty remainder. -/
theorem splitJsonStreamG_jdumps_obj (fs : List (List Char × Json)) :
    splitJsonStreamG (jdumps (Json.obj fs)) = ([jdumps (Json.obj fs)], []) := by
  have hshape : jdumps (Json.obj fs) = '\x7b' :: (jdumpsObj fs ++ ['\x7d']) := rfl
  unfold splitJsonStreamG
  rw [hshape]
  rw [scanFromG_cons]
  rw [geminiStep_open initScan rfl]
  rw [scanFromG_append]
  rw [jdumpsObj_scan_g fs]
  · rw [show ∀ t : ScanState, scanFromG t ['\x7d'] = geminiStep t '\x7d' from fun _ => rfl]
    simp [geminiStep, initScan, stripAll_balanced]
  · rfl
  · rfl
  · rfl
  · simp [initScan]

/-- The gemini scanner splits a concatenation of dumped objects back
into exactly those objects. -/
theorem splitJsonStreamG_flat_objs (vs : List Json) (h : ∀ v ∈ vs, v.isObj = true) :
    splitJsonStreamG (vs.map jdumps).flatten = (vs.map jdumps, []) := by
  induction vs with
  | nil => rfl
  | cons v rest ih =>
    have hv : v.isObj = true := h v (List.mem_cons_self _ _)
    cases v with
    | obj fs =>
      rw [List.map_cons, List.flatten_cons]
      rw [splitJsonStreamG_append]
      rw [splitJsonStreamG_jdumps_obj fs]
      simp only [List.nil_append]
      rw [ih (fun x hx => h x (List.mem_cons_of_mem _ hx))]
      simp
    | null => simp [Json.isObj] at hv
    | bool b => simp [Json.isObj] at hv
    | num n => simp [Json.isObj] at hv
    | str s0 => simp [Json.isObj] at hv
    | arr xs => simp [Json.isObj] at hv



/-! ### Claim theorems -/

/-- C1: for every sequence of complete top-level JSON objects
concatenated into one text and split at arbitrary offsets into chunks,
feeding the chunks in order through the chunk reassemblers
(`split_json_stream` of codex.py and `_split_json_stream` of
gemini.py, each call's remainder prepended to the next chunk) yields
exactly the original object strings in their original order, for every
number of chunks and every choice of split points, including splits
inside string literals containing escaped quotes and braces. -/
theorem reassembly_idempotence (vs : List Json) (hvs : ∀ v ∈ vs, v.isObj = true)
    (chunks : List (List Char)) (hch : chunks.flatten = (vs.map jdumps).flatten) :
    feedAll chunks = (vs.map jdumps, []) ∧ feedAllG chunks = (vs.map jdumps, []) := by
  constructor
  · rw [feedAll_eq_split, hch, splitJsonStream_flat_objs vs hvs]
  · rw [feedAllG_eq_split, hch, splitJsonStreamG_flat_objs vs hvs]

/-- Witness for C1 at a concrete pair of objects, split mid-string
inside an escaped-quote-and-brace string literal. -/
theorem reassembly_idempotence_witness :
    (∀ v ∈ c1vs, v.isObj = true) ∧
    c1chunks.flatten = (c1vs.map jdumps).flatten ∧
    feedAll c1chunks = (c1vs.map jdumps, []) ∧
    feedAllG c1chunks = (c1vs.map jdumps, []) := by
  refine ⟨by decide, by simp [c1chunks], ?_, ?_⟩
  · exact (reassembly_idempotence c1vs (by decide) c1chunks (by simp [c1chunks])).1
  · exact (reassembly_idempotence c1vs (by decide) c1chunks (by simp [c1chunks])).2

/-- C4: for every sequence of chunks fed through the chunk reassembler
with carried remainders, the final pending remainder never contains a
complete balanced top-level object: rescanning it emits nothing and
leaves it unchanged (any balanced object was already emitted). -/
theorem pending_never_complete (chunks : List (List Char)) :
    splitJsonStream (feedAll chunks).2 = ([], (feedAll chunks).2) ∧
    splitJsonStreamG (feedAllG chunks).2 = ([], (feedAllG chunks).2) := by
  constructor
  · rw [feedAll_eq_split]
    unfold splitJsonStream
    rw [scanFrom_init_good chunks.flatten]
    simp [clearObjs]
  · rw [feedAllG_eq_split]
    unfold splitJsonStreamG
    rw [scanFromG_init_good chunks.flatten]
    simp [clearObjs]

/-- C6: a chunk of JSON objects one of whose string values contains
unbalanced brace characters is split into exactly those complete
objects; brace counting is suspended inside double-quoted string
literals and escaped quotes do not terminate them. -/
theorem string_content_brace_safety (vs : List Json)
    (hobj : ∀ v ∈ vs, v.isObj = true) (_hbrace : vs.any hasBraceString = true) :
    splitJsonStream (vs.map jdumps).flatten = (vs.map jdumps, []) :=
  splitJsonStream_flat_objs vs hobj

/-- Witness for C6 at the spec's example object. -/
theorem string_content_brace_safety_witness :
    (∀ v ∈ [c6obj], v.isObj = true) ∧ [c6obj].any hasBraceString = true ∧
    splitJsonStream ([c6obj].map jdumps).flatten = ([c6obj].map jdumps, []) :=
  ⟨by decide, by decide, string_content_brace_safety [c6obj] (by decide) (by decide)⟩

/-- C8: for every pair of values of `CODEX_HIDE_STREAM_TYPES` and
`JUNO_CODE_HIDE_STREAM_TYPES`, the effective suppressed set is exactly
the union of the hard-coded default set and the trimmed comma-separated
entries of both variables; neither variable replaces the default set or
the other's entries. -/
theorem suppression_set_is_union (env1 env2 t : List Char) :
    t ∈ computeHideTypes env1 env2 ↔
      t ∈ defaultHiddenTypes ∨ t ∈ envEntries env1 ∨ t ∈ envEntries env2 := by
  unfold computeHideTypes
  by_cases h1 : env1 = [] <;> by_cases h2 : env2 = [] <;>
    simp [h1, h2, show envEntries [] = [] from rfl, or_assoc]

/-- C2: the token-count kind is fully suppressed.  First conjunct: for
every suppressed set and every object whose normalized kind is
`token_count`, `handle_obj` produces no output and stores the object as
the most recent value of the one-slot `last_token_count` variable.
Second conjunct: the entire stream-derived output of `run_codex`
(loop plus end-of-stream flush) is independent of the slot's contents:
the slot is never written to output, even after stdout ends. -/
theorem token_count_fully_suppressed :
    (∀ (hide : List (List Char)) (now : List Char) (o p : Json) (ot : List Char),
      normalizeEvent o = .ok ("token_count".data, p, ot) →
      handleObjE hide now o = .ok ([], some (some o))) ∧
    (∀ (loads : List Char → Option Json) (hide : List (List Char))
      (now : List Char) (lines : List (List Char)) (pend : List Char)
      (x y : Option Json),
      runCodexFrom loads hide now lines ⟨x, pend⟩ =
        runCodexFrom loads hide now lines ⟨y, pend⟩) := by
  constructor
  · intro hide now o p ot h
    unfold handleObjE
    rw [h]
    simp [bind, Except.bind, pure, Except.pure]
  · intro loads hide now lines pend x y
    have hloop : ∀ (L : List (List Char)) (pend : List Char) (x y : Option Json),
        (runLoop loads hide now L ⟨x, pend⟩).1 = (runLoop loads hide now L ⟨y, pend⟩).1 ∧
        (runLoop loads hide now L ⟨x, pend⟩).2.pending =
          (runLoop loads hide now L ⟨y, pend⟩).2.pending := by
      intro L
      induction L with
      | nil => intro pend x y; exact ⟨rfl, rfl⟩
      | cons line rest ih =>
        intro pend x y
        simp only [runLoop]
        constructor
        · rw [(ih (stepLine loads hide now pend line).2.1
            (applyWrite x (stepLine loads hide now pend line).2.2)
            (applyWrite y (stepLine loads hide now pend line).2.2)).1]
        · exact (ih (stepLine loads hide now pend line).2.1
            (applyWrite x (stepLine loads hide now pend line).2.2)
            (applyWrite y (stepLine loads hide now pend line).2.2)).2
    unfold runCodexFrom
    simp only [(hloop lines pend x y).1, (hloop lines pend x y).2]

/-- Witness for C2: a concrete `token_count` envelope event is stored
in the slot with no output, and a concrete run's output does not depend
on the slot. -/
theorem token_count_fully_suppressed_witness :
    normalizeEvent (Json.obj [("msg".data, Json.obj
      [("type".data, Json.str "token_count".data), ("input".data, Json.num 5)])]) =
      .ok ("token_count".data,
        Json.obj [("type".data, Json.str "token_count".data), ("input".data, Json.num 5)],
        []) ∧
    handleObjE defaultHiddenTypes "12:00:00 PM".data
      (Json.obj [("msg".data, Json.obj
        [("type".data, Json.str "token_count".data), ("input".data, Json.num 5)])]) =
      .ok ([], some (some (Json.obj [("msg".data, Json.obj
        [("type".data, Json.str "token_count".data), ("input".data, Json.num 5)])]))) ∧
    runCodexFrom (fun _ => none) defaultHiddenTypes "12:00:00 PM".data
      ["hello".data] ⟨some Json.null, []⟩ =
      runCodexFrom (fun _ => none) defaultHiddenTypes "12:00:00 PM".data
        ["hello".data] ⟨none, []⟩ := by
  refine ⟨rfl, ?_, ?_⟩
  · exact token_count_fully_suppressed.1 defaultHiddenTypes "12:00:00 PM".data
      _ _ _ rfl
  · exact token_count_fully_suppressed.2 (fun _ => none) defaultHiddenTypes
      "12:00:00 PM".data ["hello".data] [] (some Json.null) none

/-- C9: on the input stream consisting of the two scenario lines, the
pipeline's output is exactly one rendered event: a compact JSON header
with type `agent_message` and the render-time datetime, followed by the
`message:` label line and the literal two-line body, and a trailing
newline from `print`; the `token_count` event produces no output line
at all. -/
theorem scenario_two_line_stream (loads : List Char → Option Json) (now : List Char)
    (h1 : loads c9obj1 = some c9val1) (h2 : loads c9obj2 = some c9val2) :
    runCodex loads [] [] now [c9obj1 ++ ['\n'], c9obj2 ++ ['\n']] =
      [jdumps (Json.obj [("type".data, Json.str "agent_message".data),
        ("datetime".data, Json.str now)]) ++
        "\nmessage:\n".data ++ "Hello\nWorld".data ++ ['\n']] := by
  have hp1 : handlePart loads defaultHiddenTypes now c9obj1 =
      ([jdumps (Json.obj [("type".data, Json.str "agent_message".data),
        ("datetime".data, Json.str now)]) ++
        "\nmessage:\n".data ++ "Hello\nWorld".data ++ ['\n']], none) := by
    unfold handlePart
    rw [h1]
    rfl
  have hp2 : handlePart loads defaultHiddenTypes now c9obj2 =
      ([], some (some c9val2)) := by
    unfold handlePart
    rw [h2]
    rfl
  have hparts1 : handleParts loads defaultHiddenTypes now [c9obj1] =
      ([jdumps (Json.obj [("type".data, Json.str "agent_message".data),
        ("datetime".data, Json.str now)]) ++
        "\nmessage:\n".data ++ "Hello\nWorld".data ++ ['\n']], none) := by
    simp only [handleParts]
    rw [hp1]
    rfl
  have hparts2 : handleParts loads defaultHiddenTypes now [c9obj2] =
      ([], some (some c9val2)) := by
    simp only [handleParts]
    rw [hp2]
    rfl
  have hs1 : stepLine loads defaultHiddenTypes now [] (c9obj1 ++ ['\n']) =
      ([jdumps (Json.obj [("type".data, Json.str "agent_message".data),
        ("datetime".data, Json.str now)]) ++
        "\nmessage:\n".data ++ "Hello\nWorld".data ++ ['\n']], [], none) := by
    rw [show stepLine loads defaultHiddenTypes now [] (c9obj1 ++ ['\n']) =
      ((handleParts loads defaultHiddenTypes now [c9obj1]).1, [],
       (handleParts loads defaultHiddenTypes now [c9obj1]).2) from rfl]
    rw [hparts1]
  have hs2 : stepLine loads defaultHiddenTypes now [] (c9obj2 ++ ['\n']) =
      ([], [], some (some c9val2)) := by
    rw [show stepLine loads defaultHiddenTypes now [] (c9obj2 ++ ['\n']) =
      ((handleParts loads defaultHiddenTypes now [c9obj2]).1, [],
       (handleParts loads defaultHiddenTypes now [c9obj2]).2) from rfl]
    rw [hparts2]
  have hloop : runLoop loads defaultHiddenTypes now
      [c9obj1 ++ ['\n'], c9obj2 ++ ['\n']] ⟨none, []⟩ =
      ([jdumps (Json.obj [("type".data, Json.str "agent_message".data),
        ("datetime".data, Json.str now)]) ++
        "\nmessage:\n".data ++ "Hello\nWorld".data ++ ['\n']] ++ ([] ++ []),
       ⟨some c9val2, []⟩) := by
    simp only [runLoop]
    rw [hs1]
    dsimp only [applyWrite]
    rw [hs2]
  show runCodexFrom loads (computeHideTypes [] []) now
    [c9obj1 ++ ['\n'], c9obj2 ++ ['\n']] ⟨none, []⟩ = _
  rw [show computeHideTypes [] [] = defaultHiddenTypes from rfl]
  unfold runCodexFrom
  rw [hloop]
  simp [show flushTail loads defaultHiddenTypes now [] = ([], none) from rfl]

/-- Witness for C9 at a concrete parse function and render time. -/
theorem scenario_two_line_stream_witness :
    c9loads c9obj1 = some c9val1 ∧ c9loads c9obj2 = some c9val2 ∧
    runCodex c9loads [] [] "12:00:00 PM".data [c9obj1 ++ ['\n'], c9obj2 ++ ['\n']] =
      [jdumps (Json.obj [("type".data, Json.str "agent_message".data),
        ("datetime".data, Json.str "12:00:00 PM".data)]) ++
        "\nmessage:\n".data ++ "Hello\nWorld".data ++ ['\n']] :=
  ⟨rfl, rfl, scenario_two_line_stream c9loads "12:00:00 PM".data rfl rfl⟩

/-- C3 counterexample: on the flat-schema object
`\x7b"type":"x","text":"y"\x7d` the normalizer returns the empty dict as
payload, not the object itself, refuting the claim's third branch as
stated. -/
theorem normalize_flat_payload_counterexample :
    normalizeEvent (Json.obj [("type".data, Json.str "x".data),
      ("text".data, Json.str "y".data)]) =
      .ok ("x".data, Json.obj [], "x".data) ∧
    (Json.obj [] = Json.obj [("type".data, Json.str "x".data),
      ("text".data, Json.str "y".data)]) = False := by
  constructor
  · rfl
  · simp

/-- C3 amended: branch characterization of `_normalize_event`.  When
the `msg` dict has a nonempty stripped string type, the kind is that
type and the payload is the msg dict; otherwise, when the `item` field
is an object, the kind is `item.type` (the object's own type when
empty), the payload is the item, and the object's own type is the outer
kind; otherwise the kind is the object's own type and the payload is
the msg dict — the empty dict when `msg` is absent or not a dict, never
the object itself. -/
theorem normalize_event_branches :
    (∀ (o : Json) (t outT : List Char),
      orEmptyStrip (o.get "type".data) = .ok outT →
      orEmptyStrip ((msgObjOf o).get "type".data) = .ok t → t ≠ [] →
      normalizeEvent o = .ok (t, msgObjOf o, outT)) ∧
    (∀ (o it : Json) (itT outT : List Char),
      orEmptyStrip (o.get "type".data) = .ok outT →
      orEmptyStrip ((msgObjOf o).get "type".data) = .ok [] →
      itemObjOf o = some it →
      orEmptyStrip (it.get "type".data) = .ok itT →
      normalizeEvent o = .ok (if itT = [] then outT else itT, it, outT)) ∧
    (∀ (o : Json) (outT : List Char),
      orEmptyStrip (o.get "type".data) = .ok outT →
      orEmptyStrip ((msgObjOf o).get "type".data) = .ok [] →
      itemObjOf o = none →
      normalizeEvent o = .ok (outT, msgObjOf o, outT)) := by
  refine ⟨?_, ?_, ?_⟩
  · intro o t outT houter hmsg ht
    unfold normalizeEvent
    rw [show (match o.get "msg".data with
      | some m => if m.isObj = true then m else Json.obj []
      | none => Json.obj []) = msgObjOf o from rfl]
    rw [houter]
    simp only [bind, Except.bind]
    rw [hmsg]
    simp [List.isEmpty_iff, ht, pure, Except.pure]
  · intro o it itT outT houter hmsg hitem hit
    unfold normalizeEvent
    rw [show (match o.get "msg".data with
      | some m => if m.isObj = true then m else Json.obj []
      | none => Json.obj []) = msgObjOf o from rfl]
    rw [houter]
    simp only [bind, Except.bind]
    rw [hmsg]
    rw [show (match o.get "item".data with
      | some i => if i.isObj = true then some i else none
      | none => none) = itemObjOf o from rfl]
    rw [hitem]
    simp only [List.isEmpty_nil, if_true]
    rw [hit]
    simp [List.isEmpty_iff, pure, Except.pure]
  · intro o outT houter hmsg hitem
    unfold normalizeEvent
    rw [show (match o.get "msg".data with
      | some m => if m.isObj = true then m else Json.obj []
      | none => Json.obj []) = msgObjOf o from rfl]
    rw [houter]
    simp only [bind, Except.bind]
    rw [hmsg]
    rw [show (match o.get "item".data with
      | some i => if i.isObj = true then some i else none
      | none => none) = itemObjOf o from rfl]
    rw [hitem]
    simp [pure, Except.pure]

/-- Witness for C3's amended branches at concrete envelope, item and
flat events. -/
theorem normalize_event_branches_witness :
    normalizeEvent (Json.obj [("msg".data, Json.obj
      [("type".data, Json.str "agent_message".data)])]) =
      .ok ("agent_message".data,
        Json.obj [("type".data, Json.str "agent_message".data)], []) ∧
    normalizeEvent (Json.obj [("type".data, Json.str "item.completed".data),
      ("item".data, Json.obj [("type".data, Json.str "reasoning".data)])]) =
      .ok ("reasoning".data,
        Json.obj [("type".data, Json.str "reasoning".data)],
        "item.completed".data) ∧
    normalizeEvent (Json.obj [("type".data, Json.str "x".data),
      ("text".data, Json.str "y".data)]) =
      .ok ("x".data, Json.obj [], "x".data) := by
  refine ⟨?_, ?_, ?_⟩
  · exact normalize_event_branches.1 _ "agent_message".data [] rfl rfl (by decide)
  · exact normalize_event_branches.2.1 _ _ "reasoning".data "item.completed".data
      rfl rfl rfl rfl
  · exact normalize_event_branches.2.2 _ "x".data rfl rfl rfl

/-- C7 counterexample: a stream whose single chunk is an object that
never closes leaves that text as the pending tail, and the driver
prints it at stream end — the tail produces an output line instead of
being discarded silently. -/
theorem tail_flushed_counterexample :
    runCodex (fun _ => none) [] [] "12:00:00 PM".data ["\x7b\"a\": 1".data] =
      ["\x7b\"a\": 1\n".data] ∧
    runCodex (fun _ => none) [] [] "12:00:00 PM".data ["\x7b\"a\": 1".data] ≠ [] := by
  constructor
  · decide
  · decide

/-- C7 amended: the unparseable pending tail is not discarded silently
at stream end.  codex prints it (with a trailing newline) unless it
contains a quoted suppressed-kind substring, in which case it is
dropped; gemini always prints it. -/
theorem tail_flushed_not_discarded :
    (∀ (loads : List Char → Option Json) (hide : List (List Char))
      (now pending : List Char),
      loads pending = none → pyStrip pending ≠ [] → noisySub pending = false →
      flushTail loads hide now pending = ([pending ++ ['\n']], none)) ∧
    (∀ (loads : List Char → Option Json) (fmt : Json → List Char)
      (pending : List Char),
      loads pending = none → pyStrip pending ≠ [] →
      geminiFlushTail loads fmt pending = [pending ++ ['\n']]) := by
  constructor
  · intro loads hide now pending hl hs hn
    unfold flushTail
    rw [if_neg hs, hl]
    unfold flushFallback
    simp [hn]
  · intro loads fmt pending hl hs
    unfold geminiFlushTail
    rw [if_neg hs, hl]

/-- Witness for C7's amended behavior at the concrete unclosed tail. -/
theorem tail_flushed_not_discarded_witness :
    (fun (_ : List Char) => (none : Option Json)) "\x7b\"a\": 1".data = none ∧
    pyStrip "\x7b\"a\": 1".data ≠ [] ∧
    noisySub "\x7b\"a\": 1".data = false ∧
    flushTail (fun _ => none) defaultHiddenTypes "12:00:00 PM".data
      "\x7b\"a\": 1".data = (["\x7b\"a\": 1\n".data], none) ∧
    geminiFlushTail (fun _ => none) (fun _ => []) "\x7b\"a\": 1".data =
      ["\x7b\"a\": 1\n".data] := by
  refine ⟨rfl, by decide, by decide, ?_, ?_⟩
  · exact tail_flushed_not_discarded.1 (fun _ => none) defaultHiddenTypes
      "12:00:00 PM".data "\x7b\"a\": 1".data rfl (by decide) (by decide)
  · exact tail_flushed_not_discarded.2 (fun _ => none) (fun _ => [])
      "\x7b\"a\": 1".data rfl (by decide)

/-- Appending the truncation marker always yields a newline. -/
theorem contains_marker (a : List Char) :
    (a ++ "\n[Truncated...]".data).contains '\n' = true := by
  have h : '\n' ∈ a ++ "\n[Truncated...]".data :=
    List.mem_append_right a (by decide)
  exact List.elem_iff.mpr h

/-- C10 counterexample: with truncation limit `-2` (reachable through
the environment variable) and a three-line user text, the rendered
content is the Python slice `lines[:-2]` (all but the last two lines)
plus the marker — not "the first N lines" under any reading (`take` of
a negative limit gives the empty prefix). -/
theorem user_truncation_counterexample :
    claudeCore 1 (-2) "12:00:00 PM".data (userEvent "a\nb\nc".data) =
      .ok (jdumps (Json.obj (userMeta 1 "12:00:00 PM".data)) ++
        "\ncontent:\n".data ++ "a\n[Truncated...]".data) ∧
    ("a\n[Truncated...]".data =
      List.intercalate ['\n'] ((pySplitOn '\n' "a\nb\nc".data).take (Int.toNat (-2))) ++
        "\n[Truncated...]".data) = False := by
  constructor
  · rfl
  · decide

/-- C10 amended: for a canonical user event with extracted text `text`:
when the limit is nonnegative and the text has more than `n` lines, the
rendered content is exactly the first `n` lines joined by newlines
followed by the `[Truncated...]` marker line; when the limit is `-1` or
the text has at most `n` lines, the text is rendered unmodified (for
limits below `-1` Python slice semantics apply instead, per the
counterexample). -/
theorem user_truncation_amended (cnt : Nat) (now text : List Char) (n : Int) :
    (0 ≤ n → ((pySplitOn '\n' text).length : Int) > n →
      claudeCore cnt n now (userEvent text) =
        .ok (jdumps (Json.obj (userMeta cnt now)) ++ "\ncontent:\n".data ++
          (List.intercalate ['\n'] ((pySplitOn '\n' text).take n.toNat) ++
            "\n[Truncated...]".data))) ∧
    (n = -1 ∨ ((pySplitOn '\n' text).length : Int) ≤ n →
      claudeCore cnt n now (userEvent text) =
        .ok (if '\n' ∈ text then
          jdumps (Json.obj (userMeta cnt now)) ++ "\ncontent:\n".data ++ text
        else jdumps (Json.obj (userMeta cnt now ++
          [("content".data, Json.str text)])))) := by
  constructor
  · intro h0 hlen
    have hne : n ≠ -1 := by omega
    have hslice : pySliceTo n (pySplitOn '\n' text) =
        (pySplitOn '\n' text).take n.toNat := by
      unfold pySliceTo
      rw [if_pos h0]
    unfold claudeCore userEvent
    simp [pyGetE, pyGetDE, Json.get, dlookup, Json.isObj, isStrVal, pyIterE,
      bind, Except.bind, pure, Except.pure, asStrE, pyInStrE, hne, hlen, hslice,
      contains_marker, userMeta]
  · intro h
    rw [apply_ite Except.ok]
    rcases h with h | h
    · subst h
      unfold claudeCore userEvent
      simp [pyGetE, pyGetDE, Json.get, dlookup, Json.isObj, isStrVal, pyIterE,
        bind, Except.bind, pure, Except.pure, asStrE, pyInStrE, userMeta]
    · by_cases hn1 : n = -1
      · subst hn1
        unfold claudeCore userEvent
        simp [pyGetE, pyGetDE, Json.get, dlookup, Json.isObj, isStrVal, pyIterE,
          bind, Except.bind, pure, Except.pure, asStrE, pyInStrE, userMeta]
      · have hle : ¬ ((pySplitOn '\n' text).length : Int) > n := by omega
        unfold claudeCore userEvent
        simp [pyGetE, pyGetDE, Json.get, dlookup, Json.isObj, isStrVal, pyIterE,
          bind, Except.bind, pure, Except.pure, asStrE, pyInStrE, userMeta, hn1, hle]

/-- Witness for C10's amended behavior: a truncated three-line text at
limit 2, and an unmodified two-line text at limit -1. -/
theorem user_truncation_amended_witness :
    (0 : Int) ≤ 2 ∧ ((pySplitOn '\n' "a\nb\nc".data).length : Int) > 2 ∧
    claudeCore 1 2 "12:00:00 PM".data (userEvent "a\nb\nc".data) =
      .ok (jdumps (Json.obj (userMeta 1 "12:00:00 PM".data)) ++ "\ncontent:\n".data ++
        (List.intercalate ['\n'] ((pySplitOn '\n' "a\nb\nc".data).take (2 : Int).toNat) ++
          "\n[Truncated...]".data)) ∧
    claudeCore 1 (-1) "12:00:00 PM".data (userEvent "x\ny".data) =
      .ok (if '\n' ∈ "x\ny".data then
        jdumps (Json.obj (userMeta 1 "12:00:00 PM".data)) ++ "\ncontent:\n".data ++
          "x\ny".data
      else jdumps (Json.obj (userMeta 1 "12:00:00 PM".data ++
        [("content".data, Json.str "x\ny".data)]))) :=
  ⟨by decide, by decide,
   (user_truncation_amended 1 "12:00:00 PM".data "a\nb\nc".data 2).1 (by decide) (by decide),
   (user_truncation_amended 1 "12:00:00 PM".data "x\ny".data (-1)).2 (Or.inl rfl)⟩


theorem dHasKey_dset_self (d : List (List Char × Json)) (k : List Char) (v : Json) :
    dHasKey (dset d k v) k = true := by
  induction d with
  | nil => simp [dset, dHasKey, dlookup]
  | cons kv rest ih =>
    obtain ⟨k2, v2⟩ := kv
    by_cases h : k2 = k <;> simp_all [dset, dHasKey, dlookup]

theorem dHasKey_dset_ne (d : List (List Char × Json)) (k : List Char) (v : Json)
    (k2 : List Char) (h : k ≠ k2) :
    dHasKey (dset d k v) k2 = dHasKey d k2 := by
  induction d with
  | nil => simp [dset, dHasKey, dlookup, h]
  | cons kv rest ih =>
    obtain ⟨k3, v3⟩ := kv
    by_cases h3 : k3 = k <;> by_cases h32 : k3 = k2 <;>
      simp_all [dset, dHasKey, dlookup]

theorem hdrKeysOK_dset (d : List (List Char × Json)) (k : List Char) (v : Json)
    (hk : k ≠ "counter".data) (hOK : hdrKeysOK d) : hdrKeysOK (dset d k v) := by
  obtain ⟨ht, hd, hc⟩ := hOK
  refine ⟨?_, ?_, ?_⟩
  · by_cases hk2 : k = "type".data
    · subst hk2; exact dHasKey_dset_self d _ v
    · rw [dHasKey_dset_ne d k v _ hk2]; exact ht
  · by_cases hk2 : k = "datetime".data
    · subst hk2; exact dHasKey_dset_self d _ v
    · rw [dHasKey_dset_ne d k v _ hk2]; exact hd
  · rw [dHasKey_dset_ne d k v _ hk]; exact hc

theorem hdrKeysOK_base (t d : Json) :
    hdrKeysOK [("type".data, t), ("datetime".data, d)] := by
  refine ⟨?_, ?_, ?_⟩ <;> simp [dHasKey, dlookup]


theorem shape_plain (H : List (List Char × Json)) (out : List Char)
    (h : jdumps (Json.obj H) = out) (hOK : hdrKeysOK H) :
    ∃ hd rest, out = jdumps (Json.obj hd) ++ rest ∧ hdrKeysOK hd :=
  ⟨H, [], by rw [← h, List.append_nil], hOK⟩

theorem shape_app (H : List (List Char × Json)) (a b out : List Char)
    (h : jdumps (Json.obj H) ++ a ++ b = out) (hOK : hdrKeysOK H) :
    ∃ hd rest, out = jdumps (Json.obj hd) ++ rest ∧ hdrKeysOK hd :=
  ⟨H, a ++ b, by rw [← h, List.append_assoc], hOK⟩

theorem hdrKeysOK_ite (c : Prop) [Decidable c] (a b : List (List Char × Json))
    (ha : hdrKeysOK a) (hb : hdrKeysOK b) : hdrKeysOK (if c then a else b) := by
  split <;> assumption

theorem fmt_shape (mt : List Char) (payload : Json) (ot now out : List Char)
    (h : formatMsgPrettyE mt payload ot now = .ok (some out)) :
    ∃ hd rest, out = jdumps (Json.obj hd) ++ rest ∧ hdrKeysOK hd := by
  unfold formatMsgPrettyE at h
  by_cases t1 : pyStrip mt = "agent_message".data
  · rw [if_pos t1] at h
    rcases hC : (if payload.isObj = true then
        (payload.get "message".data).getD (Json.str []) else Json.str [])
      with _ | b | nn | s | xs | fs <;>
      rw [hC] at h <;>
      simp only [pyInStrE, bind, Except.bind, pure, Except.pure] at h
    · exact absurd h (by simp)
    · exact absurd h (by simp)
    · exact absurd h (by simp)
    · split at h
      · simp only [Except.ok.injEq, Option.some.injEq] at h
        exact shape_app _ _ _ _ h (hdrKeysOK_base _ _)
      · simp only [Except.ok.injEq, Option.some.injEq] at h
        exact shape_plain _ _ h
          (hdrKeysOK_dset _ _ _ (by decide) (hdrKeysOK_base _ _))
    · split at h
      · exact absurd h (by simp)
      · simp only [Except.ok.injEq, Option.some.injEq] at h
        exact shape_plain _ _ h
          (hdrKeysOK_dset _ _ _ (by decide) (hdrKeysOK_base _ _))
    · split at h
      · exact absurd h (by simp)
      · simp only [Except.ok.injEq, Option.some.injEq] at h
        exact shape_plain _ _ h
          (hdrKeysOK_dset _ _ _ (by decide) (hdrKeysOK_base _ _))
  · rw [if_neg t1] at h
    by_cases t2 : pyStrip mt = "agent_reasoning".data ∨ pyStrip mt = "reasoning".data
    · rw [if_pos t2] at h
      simp only [pure, Except.pure] at h
      repeat' split at h
      all_goals simp only [Except.ok.injEq, Option.some.injEq] at h
      all_goals first
          | exact shape_app _ _ _ _ h
              (hdrKeysOK_dset _ _ _ (by decide) (hdrKeysOK_base _ _))
          | exact shape_app _ _ _ _ h (hdrKeysOK_base _ _)
          | exact shape_plain _ _ h
              (hdrKeysOK_dset _ _ _ (by decide)
                (hdrKeysOK_dset _ _ _ (by decide) (hdrKeysOK_base _ _)))
          | exact shape_plain _ _ h
              (hdrKeysOK_dset _ _ _ (by decide) (hdrKeysOK_base _ _))
    · rw [if_neg t2] at h
      by_cases t3 : pyStrip mt = "message".data ∨
          pyStrip mt = "assistant_message".data ∨ pyStrip mt = "assistant".data
      · rw [if_pos t3] at h
        simp only [pure, Except.pure] at h
        repeat' split at h
        all_goals simp only [Except.ok.injEq, Option.some.injEq] at h
        all_goals first
          | exact Option.noConfusion h
          | (refine shape_app _ _ _ _ h ?_
             repeat first
               | exact hdrKeysOK_base _ _
               | (apply hdrKeysOK_dset _ _ _ (by decide)))
          | (refine shape_plain _ _ h ?_
             repeat first
               | exact hdrKeysOK_base _ _
               | (apply hdrKeysOK_dset _ _ _ (by decide)))
      · rw [if_neg t3] at h
        by_cases t4 : pyStrip mt = "exec_command_end".data
        · rw [if_pos t4] at h
          rcases hC : (if payload.isObj = true then
              (payload.get "formatted_output".data).getD (Json.str [])
              else Json.str [])
            with _ | b | nn | s | xs | fs <;>
            rw [hC] at h <;>
            simp only [pyInStrE, bind, Except.bind, pure, Except.pure] at h
          · exact absurd h (by simp)
          · exact absurd h (by simp)
          · exact absurd h (by simp)
          · split at h
            · simp only [Except.ok.injEq, Option.some.injEq] at h
              exact shape_app _ _ _ _ h (hdrKeysOK_base _ _)
            · simp only [Except.ok.injEq, Option.some.injEq] at h
              exact shape_plain _ _ h
                (hdrKeysOK_dset _ _ _ (by decide) (hdrKeysOK_base _ _))
          · split at h
            · exact absurd h (by simp)
            · simp only [Except.ok.injEq, Option.some.injEq] at h
              exact shape_plain _ _ h
                (hdrKeysOK_dset _ _ _ (by decide) (hdrKeysOK_base _ _))
          · split at h
            · exact absurd h (by simp)
            · simp only [Except.ok.injEq, Option.some.injEq] at h
              exact shape_plain _ _ h
                (hdrKeysOK_dset _ _ _ (by decide) (hdrKeysOK_base _ _))
        · rw [if_neg t4] at h
          by_cases t5 : pyStrip mt = "command_execution".data
          · rw [if_pos t5] at h
            by_cases c1 : (extractCommandOutputText payload).contains '\n' = true
            · rw [if_pos c1] at h
              simp only [pure, Except.pure, Except.ok.injEq, Option.some.injEq] at h
              refine shape_app _ _ _ _ h ?_
              repeat first
                | exact hdrKeysOK_base _ _
                | (apply hdrKeysOK_dset _ _ _ (by decide))
                | apply hdrKeysOK_ite
            · rw [if_neg c1] at h
              by_cases c2 : extractCommandOutputText payload ≠ []
              · rw [if_pos c2] at h
                simp only [pure, Except.pure, Except.ok.injEq, Option.some.injEq] at h
                refine shape_plain _ _ h ?_
                repeat first
                  | exact hdrKeysOK_base _ _
                  | (apply hdrKeysOK_dset _ _ _ (by decide))
                  | apply hdrKeysOK_ite
              · rw [if_neg c2] at h
                by_cases c3 : pyStrip (if ot ≠ [] then ot else pyStrip mt) ≠ []
                · rw [if_pos c3] at h
                  simp only [pure, Except.pure, Except.ok.injEq, Option.some.injEq] at h
                  refine shape_plain _ _ h ?_
                  repeat first
                    | exact hdrKeysOK_base _ _
                    | (apply hdrKeysOK_dset _ _ _ (by decide))
                    | apply hdrKeysOK_ite
                · rw [if_neg c3] at h
                  exact absurd h (by simp [pure, Except.pure])
          · rw [if_neg t5] at h
            exact absurd h (by simp [pure, Except.pure])


theorem dHasKey_dmerge (extra base : List (List Char × Json)) (k : List Char) :
    dHasKey (dmerge base extra) k = (dHasKey base k || dHasKey extra k) := by
  induction extra generalizing base with
  | nil => simp [dmerge, dHasKey, dlookup]
  | cons kv rest ih =>
    obtain ⟨k2, v2⟩ := kv
    have e : dmerge base ((k2, v2) :: rest) = dmerge (dset base k2 v2) rest := rfl
    rw [e, ih]
    by_cases h : k2 = k
    · subst h
      rw [dHasKey_dset_self]
      simp [dHasKey, dlookup]
    · rw [dHasKey_dset_ne _ _ _ _ h]
      simp [dHasKey, dlookup, h]

theorem dHasKey_dpop_ne (d : List (List Char × Json)) (kp k : List Char)
    (h : kp ≠ k) : dHasKey (dpop d kp) k = dHasKey d k := by
  induction d with
  | nil => simp [dpop]
  | cons kv rest ih =>
    obtain ⟨k2, v2⟩ := kv
    by_cases h2 : k2 = kp <;> by_cases h3 : k2 = k <;>
      simp_all [dpop, dHasKey, dlookup]

theorem claudeGeneric_shape (counter : Nat) (now : List Char) (data : Json)
    (out : List Char) (h : claudeGeneric counter now data = .ok out) :
    ∃ hd rest, out = jdumps (Json.obj hd) ++ rest ∧
      dHasKey hd "datetime".data = true ∧ dHasKey hd "counter".data = true ∧
      (∀ fs, data = Json.obj fs → dHasKey fs "type".data = true →
        dHasKey hd "type".data = true) := by
  unfold claudeGeneric at h
  cases data with
  | obj fs =>
    simp only [bind, Except.bind, pure, Except.pure] at h
    rcases hr : dlookup "result".data
        (dmerge [("datetime".data, Json.str now),
          ("counter".data, counterVal counter)] fs)
      with _ | v
    · rw [hr] at h
      simp only [Except.ok.injEq] at h
      refine ⟨_, [], by rw [← h, List.append_nil], ?_, ?_, ?_⟩
      · rw [dHasKey_dmerge]
        rfl
      · rw [dHasKey_dmerge]
        rw [show dHasKey [("datetime".data, Json.str now),
          ("counter".data, counterVal counter)] "counter".data = true from rfl]
        simp
      · intro fs2 heq ht
        cases heq
        rw [dHasKey_dmerge, ht, Bool.or_true]
    · rw [hr] at h
      cases v with
      | str s =>
        dsimp only at h
        by_cases hc : s.contains '\n' = true
        · rw [if_pos hc] at h
          simp only [Except.ok.injEq] at h
          refine ⟨_, _, by rw [← h, List.append_assoc], ?_, ?_, ?_⟩
          · rw [dHasKey_dpop_ne _ _ _ (by decide), dHasKey_dmerge]
            rfl
          · rw [dHasKey_dpop_ne _ _ _ (by decide), dHasKey_dmerge]
            rw [show dHasKey [("datetime".data, Json.str now),
              ("counter".data, counterVal counter)] "counter".data = true from rfl]
            simp
          · intro fs2 heq ht
            cases heq
            rw [dHasKey_dpop_ne _ _ _ (by decide), dHasKey_dmerge, ht, Bool.or_true]
        · rw [if_neg hc] at h
          simp only [Except.ok.injEq] at h
          refine ⟨_, [], by rw [← h, List.append_nil], ?_, ?_, ?_⟩
          · rw [dHasKey_dmerge]
            rfl
          · rw [dHasKey_dmerge]
            rw [show dHasKey [("datetime".data, Json.str now),
              ("counter".data, counterVal counter)] "counter".data = true from rfl]
            simp
          · intro fs2 heq ht
            cases heq
            rw [dHasKey_dmerge, ht, Bool.or_true]
      | null =>
        dsimp only at h
        simp only [Except.ok.injEq] at h
        refine ⟨_, [], by rw [← h, List.append_nil], ?_, ?_, ?_⟩
        · rw [dHasKey_dmerge]
          rfl
        · rw [dHasKey_dmerge]
          rw [show dHasKey [("datetime".data, Json.str now),
            ("counter".data, counterVal counter)] "counter".data = true from rfl]
          simp
        · intro fs2 heq ht
          cases heq
          rw [dHasKey_dmerge, ht, Bool.or_true]
      | bool b =>
        dsimp only at h
        simp only [Except.ok.injEq] at h
        refine ⟨_, [], by rw [← h, List.append_nil], ?_, ?_, ?_⟩
        · rw [dHasKey_dmerge]
          rfl
        · rw [dHasKey_dmerge]
          rw [show dHasKey [("datetime".data, Json.str now),
            ("counter".data, counterVal counter)] "counter".data = true from rfl]
          simp
        · intro fs2 heq ht
          cases heq
          rw [dHasKey_dmerge, ht, Bool.or_true]
      | num n =>
        dsimp only at h
        simp only [Except.ok.injEq] at h
        refine ⟨_, [], by rw [← h, List.append_nil], ?_, ?_, ?_⟩
        · rw [dHasKey_dmerge]
          rfl
        · rw [dHasKey_dmerge]
          rw [show dHasKey [("datetime".data, Json.str now),
            ("counter".data, counterVal counter)] "counter".data = true from rfl]
          simp
        · intro fs2 heq ht
          cases heq
          rw [dHasKey_dmerge, ht, Bool.or_true]
      | arr xs =>
        dsimp only at h
        simp only [Except.ok.injEq] at h
        refine ⟨_, [], by rw [← h, List.append_nil], ?_, ?_, ?_⟩
        · rw [dHasKey_dmerge]
          rfl
        · rw [dHasKey_dmerge]
          rw [show dHasKey [("datetime".data, Json.str now),
            ("counter".data, counterVal counter)] "counter".data = true from rfl]
          simp
        · intro fs2 heq ht
          cases heq
          rw [dHasKey_dmerge, ht, Bool.or_true]
      | obj gs =>
        dsimp only at h
        simp only [Except.ok.injEq] at h
        refine ⟨_, [], by rw [← h, List.append_nil], ?_, ?_, ?_⟩
        · rw [dHasKey_dmerge]
          rfl
        · rw [dHasKey_dmerge]
          rw [show dHasKey [("datetime".data, Json.str now),
            ("counter".data, counterVal counter)] "counter".data = true from rfl]
          simp
        · intro fs2 heq ht
          cases heq
          rw [dHasKey_dmerge, ht, Bool.or_true]
  | null => simp [bind, Except.bind] at h
  | bool b => simp [bind, Except.bind] at h
  | num n => simp [bind, Except.bind] at h
  | str s => simp [bind, Except.bind] at h
  | arr xs => simp [bind, Except.bind] at h


theorem claudeCore_shape (counter : Nat) (truncN : Int) (now : List Char)
    (data : Json) (out : List Char)
    (h : claudeCore counter truncN now data = .ok out) :
    ∃ hd rest, out = jdumps (Json.obj hd) ++ rest ∧
      dHasKey hd "datetime".data = true ∧ dHasKey hd "counter".data = true ∧
      (∀ fs, data = Json.obj fs → dHasKey fs "type".data = true →
        dHasKey hd "type".data = true) := by
  unfold claudeCore at h
  simp only [bind] at h
  delta Except.bind at h
  repeat' (first | split at h | dsimp only at h)
  all_goals first
    | exact Except.noConfusion h
    | exact claudeGeneric_shape _ _ _ _ h
    | (simp only [pure, Except.pure, Except.ok.injEq] at h
       subst h
       first
         | exact ⟨_, _, List.append_assoc _ _ _, rfl, rfl, fun _ _ _ => rfl⟩
         | exact ⟨_, [], (List.append_nil _).symm, rfl, rfl, fun _ _ _ => rfl⟩)


/-- C5 (counterexample): the codex renderer's header for a canonical
`agent_message` event contains no `"counter"` field at all — the emitted
line does not even mention the word `counter`, refuting the claim that
every rendered header carries a `counter` field. -/
theorem headers_counter_counterexample :
    (formatMsgPretty "agent_message".data
        (Json.obj [("message".data, Json.str "hi".data)]) []
        "12:00:00 PM".data).map
      (containsSub "counter".data) = some false := by
  rfl

/-- C5 (amended): every line emitted by the codex renderer starts with a
compact JSON header object that carries `type` and `datetime` but never
`counter`; every line emitted by the claude renderer's try-block starts
with a compact JSON header object that carries `datetime` and `counter`,
and carries `type` whenever the incoming event object has a `type`
field. -/
theorem headers_carry_type_datetime_counter :
    (∀ mt payload ot now out,
      formatMsgPretty mt payload ot now = some out →
      ∃ hd rest, out = jdumps (Json.obj hd) ++ rest ∧
        dHasKey hd "type".data = true ∧ dHasKey hd "datetime".data = true ∧
        dHasKey hd "counter".data = false) ∧
    (∀ counter truncN now data out,
      claudeCore counter truncN now data = Except.ok out →
      ∃ hd rest, out = jdumps (Json.obj hd) ++ rest ∧
        dHasKey hd "datetime".data = true ∧ dHasKey hd "counter".data = true ∧
        (∀ fs, data = Json.obj fs → dHasKey fs "type".data = true →
          dHasKey hd "type".data = true)) := by
  constructor
  · intro mt payload ot now out hfmt
    have hE : formatMsgPrettyE mt payload ot now = .ok (some out) := by
      unfold formatMsgPretty at hfmt
      rcases hE2 : formatMsgPrettyE mt payload ot now with e | r
      · rw [hE2] at hfmt
        exact absurd hfmt (by simp)
      · rw [hE2] at hfmt
        dsimp only at hfmt
        rw [hfmt]
    obtain ⟨hd, rest, he, h1, h2, h3⟩ := fmt_shape mt payload ot now out hE
    exact ⟨hd, rest, he, h1, h2, h3⟩
  · exact fun counter truncN now data out h =>
      claudeCore_shape counter truncN now data out h

/-- Witness: the amended header claim applied to a concrete
`agent_message` event on the codex side and a concrete `user` event on
the claude side. -/
theorem headers_carry_type_datetime_counter_witness :
    (∃ hd rest, jdumps (Json.obj [("type".data, Json.str "agent_message".data),
        ("datetime".data, Json.str "12:00:00 PM".data),
        ("message".data, Json.str "hi".data)]) = jdumps (Json.obj hd) ++ rest ∧
      dHasKey hd "type".data = true ∧ dHasKey hd "datetime".data = true ∧
      dHasKey hd "counter".data = false) ∧
    (∃ hd rest, jdumps (Json.obj [("type".data, Json.str "user".data),
        ("datetime".data, Json.str "12:00:00 PM".data),
        ("counter".data, Json.str "#1".data),
        ("content".data, Json.str "hi".data)]) = jdumps (Json.obj hd) ++ rest ∧
      dHasKey hd "datetime".data = true ∧ dHasKey hd "counter".data = true ∧
      (∀ fs, userEvent "hi".data = Json.obj fs → dHasKey fs "type".data = true →
        dHasKey hd "type".data = true)) :=
  ⟨headers_carry_type_datetime_counter.1 "agent_message".data
      (Json.obj [("message".data, Json.str "hi".data)]) [] "12:00:00 PM".data _ rfl,
   headers_carry_type_datetime_counter.2 1 (-1) "12:00:00 PM".data
      (userEvent "hi".data) _ (by rfl)⟩

end Juno
